import Mathlib

/-!
# Shadowsocks one-time-auth chunk codec

A shallow embedding of `proxy/shadowsocks/ota.go`: the `Authenticator`, the two
key generators, `ChunkReader.Read` and `ChunkWriter.Write`.

* Bytes are `Fin 256`; a Go `[]byte` value is a `List Byte`.
* Go's `uint16` arithmetic is `Nat` arithmetic followed by `% 65536`.
* A Go closure is its captured variables together with its body
  (`KeyGenerator`); calling it returns the result and the closure afterwards.
* `io.Reader` is a finite run of bytes followed by the error the stream then
  reports; `io.Writer` is a state with a write function.
* A Go run-time panic (slice bounds out of range) is the outcome `panic`.
-/

namespace Shadowsocks

abbrev Byte := Fin 256

/-- Go's conversion `byte(n)` of a non-negative integer: the low eight bits. -/
def toByte (n : Nat) : Byte := ⟨n % 256, Nat.mod_lt n (by decide)⟩

/-! ## crypto/sha1 and crypto/hmac (Go standard library) -/

/-- Big-endian four-byte encoding of the low 32 bits of `n`. -/
def be32 (n : Nat) : List Byte :=
  [toByte (n >>> 24), toByte (n >>> 16), toByte (n >>> 8), toByte n]

/-- Big-endian value of a byte string. -/
def beWord (bs : List Byte) : Nat := bs.foldl (fun acc b => acc * 256 + b.val) 0

/-- Rotate a 32-bit word left by `n` bits. -/
def rotl32 (x n : Nat) : Nat := ((x <<< n) ||| (x >>> (32 - n))) % 4294967296

/-- SHA-1 padding: a one bit, zeros, and the 64-bit message length in bits. -/
def sha1Pad (msg : List Byte) : List Byte :=
  msg ++ [toByte 128] ++ List.replicate ((119 - msg.length % 64) % 64) (toByte 0)
    ++ be32 ((msg.length * 8) >>> 32) ++ be32 (msg.length * 8)

/-- The 80-word message schedule of one 64-byte block. -/
def sha1Schedule (block : List Byte) : List Nat :=
  (List.range 64).foldl
    (fun w _ =>
      let t := w.length
      w ++ [rotl32 (w.getD (t - 3) 0 ^^^ w.getD (t - 8) 0 ^^^ w.getD (t - 14) 0
        ^^^ w.getD (t - 16) 0) 1])
    ((List.range 16).map fun i => beWord ((block.drop (4 * i)).take 4))

/-- The five chaining words of SHA-1. -/
structure Sha1State where
  h0 : Nat
  h1 : Nat
  h2 : Nat
  h3 : Nat
  h4 : Nat

/-- Round `t` of the SHA-1 compression function over the schedule `w`. -/
def sha1Round (w : List Nat) (s : Sha1State) (t : Nat) : Sha1State :=
  let f :=
    if t < 20 then (s.h1 &&& s.h2) ||| ((s.h1 ^^^ 4294967295) &&& s.h3)
    else if t < 40 then s.h1 ^^^ s.h2 ^^^ s.h3
    else if t < 60 then (s.h1 &&& s.h2) ||| (s.h1 &&& s.h3) ||| (s.h2 &&& s.h3)
    else s.h1 ^^^ s.h2 ^^^ s.h3
  let k :=
    if t < 20 then 1518500249 else if t < 40 then 1859775393
    else if t < 60 then 2400959708 else 3395469782
  { h0 := (rotl32 s.h0 5 + f + s.h4 + k + w.getD t 0) % 4294967296
    h1 := s.h0
    h2 := rotl32 s.h1 30
    h3 := s.h2
    h4 := s.h3 }

/-- SHA-1 compression of one block into the chaining state. -/
def sha1Block (s : Sha1State) (block : List Byte) : Sha1State :=
  let r := (List.range 80).foldl (sha1Round (sha1Schedule block)) s
  { h0 := (s.h0 + r.h0) % 4294967296
    h1 := (s.h1 + r.h1) % 4294967296
    h2 := (s.h2 + r.h2) % 4294967296
    h3 := (s.h3 + r.h3) % 4294967296
    h4 := (s.h4 + r.h4) % 4294967296 }

/-- SHA-1 digest (`sha1.New`, `Write`, `Sum(nil)`): 20 bytes. -/
def sha1 (msg : List Byte) : List Byte :=
  let p := sha1Pad msg
  let s := (List.range (p.length / 64)).foldl
    (fun s i => sha1Block s ((p.drop (64 * i)).take 64))
    { h0 := 1732584193, h1 := 4023233417, h2 := 2562383102, h3 := 271733878,
      h4 := 3285377520 }
  be32 s.h0 ++ be32 s.h1 ++ be32 s.h2 ++ be32 s.h3 ++ be32 s.h4

/-- Bytewise exclusive or. -/
def xorByte (a b : Byte) : Byte := toByte (a.val ^^^ b.val)

/-- HMAC-SHA1: `hmac.New(sha1.New, key)`, `Write(data)`, `Sum(nil)`. -/
def hmacSha1 (key data : List Byte) : List Byte :=
  let k := if 64 < key.length then sha1 key else key
  let k := k ++ List.replicate (64 - k.length) (toByte 0)
  sha1 (k.map (xorByte (toByte 92)) ++ sha1 (k.map (xorByte (toByte 54)) ++ data))

/-! ## common/serial -/

/-- Modelled from the spec: `serial.IntToBytes(value, b)` of package
common/serial, which is not among the sources: "big-endian-encoded-counter-as-4-bytes",
appended to `b`. -/
def IntToBytes (value : Nat) (b : List Byte) : List Byte := b ++ be32 value

/-- Modelled from the spec: `serial.BytesToUint16` of package common/serial, which is
not among the sources: "decode as a big-endian unsigned 16-bit length". -/
def BytesToUint16 (b : List Byte) : Nat := (b.getD 0 0).val * 256 + (b.getD 1 0).val

/-- Modelled from the spec: the "2-byte big-endian encoding" of a `uint16`, as
`Buffer.PrependUint16` (package common/alloc, not among the sources) lays it down. -/
def Uint16ToBytes (v : Nat) : List Byte := [toByte (v >>> 8), toByte v]

/-! ## Errors and outcomes -/

/-- The error values that reach the callers of `Read` and `Write`. -/
inductive Error where
  /-- The error `io.EOF`. -/
  | EOF
  /-- The error `io.ErrUnexpectedEOF`. -/
  | ErrUnexpectedEOF
  /-- Any other error of the underlying stream. -/
  | stream (code : Nat)
  /-- The error `transport.ErrCorruptedPacket`. -/
  | ErrCorruptedPacket
  deriving DecidableEq, Repr

/-- How a call ends: with a value, with an error, or in a Go run-time panic. -/
inductive Outcome (α : Type) where
  | ok (value : α)
  | error (err : Error)
  | panic
  deriving DecidableEq, Repr

/-! ## common/alloc -/

/-- Modelled from the spec: `alloc.Buffer` of package common/alloc, which is not among
the sources: "a fixed-capacity byte region with a mutable valid-range (offset, length)
inside it". The region is held in three runs: the reserved headroom `front` before the
valid range, the valid range `Value`, and the `spare` bytes behind it up to the
capacity of the region. -/
structure Buffer where
  front : List Byte
  Value : List Byte
  spare : List Byte
  deriving DecidableEq, Repr

namespace Buffer

/-- The capacity `cap(b.Value)`: what lies between the start of the valid range and
the end of the region. -/
def cap (b : Buffer) : Nat := b.Value.length + b.spare.length

/-- The operation `b.Len()`: "report current length". -/
def Len (b : Buffer) : Nat := b.Value.length

/-- The operation `b.Bytes()`: "report ... byte contents" of the valid range. -/
def Bytes (b : Buffer) : List Byte := b.Value

/-- The Go slice expression `b.Value[:n]`, legal up to the capacity. -/
def upTo (b : Buffer) (n : Nat) : Option (List Byte) :=
  if n ≤ b.cap then some ((b.Value ++ b.spare).take n) else none

/-- The Go slice expression `b.Value[n:]`, legal up to the length. -/
def fromIndex (b : Buffer) (n : Nat) : Option (List Byte) :=
  if n ≤ b.Value.length then some (b.Value.drop n) else none

/-- The bytes `data` stored through the slice `b.Value[:data.length]`: "bounded write
into a byte range". The valid range keeps its length. -/
def fill (b : Buffer) (data : List Byte) : Buffer :=
  let region := data ++ (b.Value ++ b.spare).drop data.length
  { b with Value := region.take b.Value.length, spare := region.drop b.Value.length }

/-- The operation `b.Slice(lo, hi)`: "narrow/shift the valid range" to
`b.Value[lo:hi]`; the slice expression panics outside `lo ≤ hi ≤ cap`. -/
def Slice (b : Buffer) (lo hi : Nat) : Option Buffer :=
  if lo ≤ hi ∧ hi ≤ b.cap then
    some { front := b.front ++ (b.Value ++ b.spare).take lo
           Value := ((b.Value ++ b.spare).take hi).drop lo
           spare := (b.Value ++ b.spare).drop hi }
  else none

/-- The operation `b.SliceFrom(lo)`: the valid range becomes `b.Value[lo:]`. -/
def SliceFrom (b : Buffer) (lo : Nat) : Option Buffer :=
  if lo ≤ b.Value.length then
    some { b with front := b.front ++ b.Value.take lo, Value := b.Value.drop lo }
  else none

/-- The operation `b.Prepend(data)`: "prepend bytes ahead of the current valid range
(requires reserved headroom)"; without the headroom there is no result. -/
def Prepend (b : Buffer) (data : List Byte) : Option Buffer :=
  if data.length ≤ b.front.length then
    some { b with front := b.front.take (b.front.length - data.length)
                  Value := data ++ b.Value }
  else none

/-- The operation `b.PrependUint16(v)`: the two big-endian bytes of `v` prepended. -/
def PrependUint16 (b : Buffer) (v : Nat) : Option Buffer :=
  b.Prepend (Uint16ToBytes v)

end Buffer

/-! ## io.Reader and io.Writer (Go standard library) -/

/-- An input stream: the bytes it still delivers, and the error it reports once they
are used up (`io.EOF` for a stream that was closed, any other error for one that
broke). -/
structure Reader where
  data : List Byte
  fail : Error
  deriving DecidableEq, Repr

/-- The function `io.ReadFull(r, buf)` with `len(buf) = n`: exactly `n` bytes, or
the stream's error; `io.EOF` turns into `io.ErrUnexpectedEOF` when some but not all
bytes came. Nothing is read for `n = 0`. -/
def ReadFull (r : Reader) (n : Nat) : Except Error (List Byte) × Reader :=
  if n ≤ r.data.length then
    (.ok (r.data.take n), { r with data := r.data.drop n })
  else if r.data ≠ [] ∧ r.fail = Error.EOF then
    (.error Error.ErrUnexpectedEOF, { r with data := [] })
  else
    (.error r.fail, { r with data := [] })

/-- An output stream: its state and what one `Write(p)` call does to it, returning
the byte count and the error of that call. -/
structure Writer (ω : Type) where
  st : ω
  write : ω → List Byte → (Nat × Option Error) × ω

/-- An output stream that accepts everything and keeps it, such as a `bytes.Buffer`
or the sending end of a connection. -/
def Writer.sink (sent : List Byte) : Writer (List Byte) :=
  { st := sent, write := fun s p => ((p.length, none), s ++ p) }

/-! ## proxy/shadowsocks/ota.go -/

def AuthSize : Nat := 10

/-- The type `KeyGenerator func() []byte`: a closure, held as its captured variables
`env` and its body `fn`, which returns the key and the captured variables as the call
leaves them. -/
structure KeyGenerator (σ : Type) where
  env : σ
  fn : σ → List Byte × σ

/-- One invocation `keygen()`: the key, and the closure afterwards. -/
def KeyGenerator.call {σ : Type} (g : KeyGenerator σ) : List Byte × KeyGenerator σ :=
  ((g.fn g.env).1, { g with env := (g.fn g.env).2 })

/-- The closure after `n` invocations. -/
def KeyGenerator.after {σ : Type} (g : KeyGenerator σ) : Nat → KeyGenerator σ
  | 0 => g
  | n + 1 => (g.after n).call.2

structure Authenticator (σ : Type) where
  key : KeyGenerator σ

def NewAuthenticator {σ : Type} (keygen : KeyGenerator σ) : Authenticator σ :=
  { key := keygen }

/-- The method `Authenticator.Authenticate`: the returned bytes, and the authenticator
with its key generator as the call leaves it. -/
def Authenticator.Authenticate {σ : Type} (this : Authenticator σ)
    (auth data : List Byte) : List Byte × Authenticator σ :=
  let k := this.key.call
  let res := hmacSha1 k.1 data
  (auth ++ res.take AuthSize, { key := k.2 })

def HeaderKeyGenerator (key iv : List Byte) : KeyGenerator Unit :=
  { env := ()
    fn := fun _ =>
      let newKey : List Byte := []
      let newKey := newKey ++ iv
      let newKey := newKey ++ key
      (newKey, ()) }

/-- The captured variable is `chunkId`, a Go `int` counted here in `Nat`; `iv` is
captured too and never assigned. -/
def ChunkKeyGenerator (iv : List Byte) : KeyGenerator Nat :=
  { env := 0
    fn := fun chunkId =>
      let newKey : List Byte := []
      let newKey := newKey ++ iv
      let newKey := IntToBytes chunkId newKey
      (newKey, chunkId + 1) }

structure ChunkReader (σ : Type) where
  reader : Reader
  auth : Authenticator σ

def NewChunkReader {σ : Type} (reader : Reader) (auth : Authenticator σ) : ChunkReader σ :=
  { reader := reader, auth := auth }

/-- The method `ChunkReader.Read`. The buffer `alloc.NewLargeBuffer()` hands out is the
argument `buffer`; the result is the outcome of the call and the reader as the call
leaves it. `buffer.Release()` gives the buffer back to the pool and changes nothing
that is returned. -/
def ChunkReader.Read {σ : Type} (this : ChunkReader σ) (buffer : Buffer) :
    Outcome Buffer × ChunkReader σ :=
  match buffer.upTo 2 with
  | none => (.panic, this)
  | some _ =>
  match ReadFull this.reader 2 with
  | (.error err, reader) => (.error err, { this with reader := reader })
  | (.ok head, reader) =>
  let buffer := buffer.fill head
  let length := (BytesToUint16 ((buffer.upTo 2).getD []) + AuthSize) % 65536
  match buffer.upTo length with
  | none => (.panic, { this with reader := reader })
  | some _ =>
  match ReadFull reader length with
  | (.error err, reader) => (.error err, { this with reader := reader })
  | (.ok body, reader) =>
  let buffer := buffer.fill body
  match buffer.Slice 0 length with
  | none => (.panic, { this with reader := reader })
  | some buffer =>
  match buffer.upTo AuthSize with
  | none => (.panic, { this with reader := reader })
  | some authBytes =>
  match buffer.fromIndex AuthSize with
  | none => (.panic, { this with reader := reader })
  | some payload =>
  let actual := this.auth.Authenticate [] payload
  if authBytes ≠ actual.1 then
    (.error Error.ErrCorruptedPacket, { reader := reader, auth := actual.2 })
  else
    match buffer.SliceFrom AuthSize with
    | none => (.panic, { reader := reader, auth := actual.2 })
    | some buffer => (.ok buffer, { reader := reader, auth := actual.2 })

structure ChunkWriter (ω σ : Type) where
  writer : Writer ω
  auth : Authenticator σ

def NewChunkWriter {ω σ : Type} (writer : Writer ω) (auth : Authenticator σ) :
    ChunkWriter ω σ :=
  { writer := writer, auth := auth }

/-- The method `ChunkWriter.Write`: what the call returns (byte count and error), the
writer as the call leaves it, and the caller's buffer as the call leaves it. There is
no result when the buffer lacks the headroom `Prepend` requires. -/
def ChunkWriter.Write {ω σ : Type} (this : ChunkWriter ω σ) (payload : Buffer) :
    Option ((Nat × Option Error) × ChunkWriter ω σ × Buffer) :=
  let totalLength := payload.Len
  let authed := this.auth.Authenticate [] payload.Bytes
  match payload.Prepend authed.1 with
  | none => none
  | some payload =>
  match payload.PrependUint16 (totalLength % 65536) with
  | none => none
  | some payload =>
  let r := this.writer.write this.writer.st payload.Bytes
  some (r.1, { writer := { this.writer with st := r.2 }, auth := authed.2 }, payload)


/-! ## Auxiliary definitions for the statements -/

/-- What `Read` leaves in the reader when it got as far as the tag check. -/
def ChunkReader.checked {σ : Type} (this : ChunkReader σ) (payload rest : List Byte) :
    ChunkReader σ :=
  { reader := { data := rest, fail := this.reader.fail }
    auth := (this.auth.Authenticate [] payload).2 }

/-- The bytes of one chunk on the wire for the payload `P`, as an authenticator in the
state `a` lays them down: length field, tag, payload. -/
def wireUnit {σ : Type} (a : Authenticator σ) (P : List Byte) : List Byte :=
  Uint16ToBytes (P.length % 65536) ++ ((a.Authenticate [] P).1 ++ P)

/-- The outcome with its value mapped. -/
def Outcome.map {α β : Type} (f : α → β) : Outcome α → Outcome β
  | .ok v => .ok (f v)
  | .error e => .error e
  | .panic => .panic

/-- Successive `Write` calls on one writer, one per payload buffer, in order; the writer
as the last call leaves it. -/
def writeAll {ω σ : Type} : List Buffer → ChunkWriter ω σ → Option (ChunkWriter ω σ)
  | [], w => some w
  | p :: ps, w =>
    match w.Write p with
    | none => none
    | some r => writeAll ps r.2.1

/-- Successive `Read` calls on one reader, one per acquired buffer, in order; each call
is recorded with its outcome and the number of stream bytes it consumed. -/
def readAll {σ : Type} : List Buffer → ChunkReader σ → List (Outcome Buffer × Nat)
  | [], _ => []
  | b :: bs, r =>
    ((r.Read b).1, r.reader.data.length - (r.Read b).2.reader.data.length)
      :: readAll bs (r.Read b).2

/-- The wire units of the payloads `Ps` in order, the authenticator starting in the
state `a`. -/
def wireUnits {σ : Type} : List (List Byte) → Authenticator σ → List Byte
  | [], _ => []
  | P :: Ps, a => wireUnit a P ++ wireUnits Ps (a.Authenticate [] P).2

/-- The byte with its bit `k % 8` inverted. -/
def flipBit (b : Byte) (k : Nat) : Byte := toByte (b.val ^^^ 2 ^ (k % 8))

/-- The byte string with the single bit at position `pos` inverted; positions count
through the bytes in order, eight to a byte. -/
def flipBitAt : List Byte → Nat → List Byte
  | [], _ => []
  | b :: bs, pos => if pos < 8 then flipBit b pos :: bs else b :: flipBitAt bs (pos - 8)

/-- A sample buffer as the pool hands it out: 16 bytes of headroom, 64 bytes of
capacity. -/
def sampleBuffer : Buffer :=
  { front := List.replicate 16 0, Value := List.replicate 64 0, spare := [] }

/-- A sample payload buffer: 16 bytes of headroom, three bytes of payload. -/
def samplePayload : Buffer :=
  { front := List.replicate 16 0, Value := [10, 20, 30], spare := [] }

/-! ## Basic facts -/

theorem be32_length (n : Nat) : (be32 n).length = 4 := rfl

theorem sha1_length (msg : List Byte) : (sha1 msg).length = 20 := by
  simp [sha1, be32_length]

theorem hmacSha1_length (key data : List Byte) : (hmacSha1 key data).length = 20 := by
  simp [hmacSha1, sha1_length]

/-- The embedding of HMAC-SHA1 against test case 2 of RFC 2202: key "Jefe", data
"what do ya want for nothing?". -/
theorem hmacSha1_rfc2202 :
    hmacSha1 [74, 101, 102, 101]
      [119, 104, 97, 116, 32, 100, 111, 32, 121, 97, 32, 119, 97, 110, 116, 32, 102, 111, 114,
        32, 110, 111, 116, 104, 105, 110, 103, 63]
    = [239, 252, 223, 106, 229, 235, 47, 162, 210, 116, 22, 213, 241, 132, 223, 156, 37, 154,
        124, 121] := by
  decide!

theorem Authenticate_fst {σ : Type} (a : Authenticator σ) (auth data : List Byte) :
    (a.Authenticate auth data).1 = auth ++ (hmacSha1 a.key.call.1 data).take AuthSize := rfl

theorem Authenticate_snd {σ : Type} (a : Authenticator σ) (auth data : List Byte) :
    (a.Authenticate auth data).2 = { key := a.key.call.2 } := rfl

theorem Authenticate_nil_length {σ : Type} (a : Authenticator σ) (data : List Byte) :
    (a.Authenticate [] data).1.length = 10 := by
  simp [Authenticate_fst, hmacSha1_length, AuthSize]

theorem ReadFull_append (a rest : List Byte) (f : Error) :
    ReadFull { data := a ++ rest, fail := f } a.length = (.ok a, { data := rest, fail := f }) := by
  simp [ReadFull]

namespace Buffer

theorem fill_region (b : Buffer) (d : List Byte) :
    (b.fill d).Value ++ (b.fill d).spare = d ++ (b.Value ++ b.spare).drop d.length := by
  simp [fill]

theorem fill_front (b : Buffer) (d : List Byte) : (b.fill d).front = b.front := rfl

theorem fill_cap (b : Buffer) (d : List Byte) (h : d.length ≤ b.cap) :
    (b.fill d).cap = b.cap := by
  have := congrArg List.length (fill_region b d)
  simp only [List.length_append, List.length_drop] at this
  simp only [cap] at h ⊢
  omega

end Buffer


theorem BytesToUint16_pair (b0 b1 : Byte) (l : List Byte) :
    BytesToUint16 (b0 :: b1 :: l) = b0.val * 256 + b1.val := rfl

theorem Read_chunk {σ : Type} (this : ChunkReader σ) (buffer : Buffer) (b0 b1 : Byte)
    (tag payload rest : List Byte)
    (hdata : this.reader.data = b0 :: b1 :: (tag ++ payload ++ rest))
    (htag : tag.length = 10)
    (hlen : (b0.val * 256 + b1.val + 10) % 65536 = payload.length + 10)
    (hcap : payload.length + 10 ≤ buffer.cap) :
    this.Read buffer =
      if tag ≠ (this.auth.Authenticate [] payload).1 then
        (.error Error.ErrCorruptedPacket, this.checked payload rest)
      else
        (.ok { front := buffer.front ++ tag, Value := payload
               spare := (buffer.Value ++ buffer.spare).drop (payload.length + 10) },
         this.checked payload rest) := by
  obtain ⟨⟨data, fail⟩, auth⟩ := this
  simp only at hdata
  subst hdata
  have h2 : 2 ≤ buffer.cap := by omega
  have hrf1 : ReadFull { data := b0 :: b1 :: (tag ++ payload ++ rest), fail := fail } 2
      = (.ok [b0, b1], { data := tag ++ payload ++ rest, fail := fail }) :=
    ReadFull_append [b0, b1] _ fail
  have hrf2 : ReadFull { data := tag ++ payload ++ rest, fail := fail } (payload.length + 10)
      = (.ok (tag ++ payload), { data := rest, fail := fail }) := by
    have := ReadFull_append (tag ++ payload) rest fail
    simpa [htag, Nat.add_comm] using this
  have hc1 : (buffer.fill [b0, b1]).cap = buffer.cap := Buffer.fill_cap _ _ (by simpa using h2)
  have hr1 : (buffer.fill [b0, b1]).Value ++ (buffer.fill [b0, b1]).spare
      = b0 :: b1 :: (buffer.Value ++ buffer.spare).drop 2 := by
    simpa using Buffer.fill_region buffer [b0, b1]
  have hup1 : (buffer.fill [b0, b1]).upTo 2 = some [b0, b1] := by
    simp [Buffer.upTo, hc1, h2, hr1]
  set buf1 := buffer.fill [b0, b1] with hbuf1
  have hc2 : (buf1.fill (tag ++ payload)).cap = buffer.cap := by
    rw [Buffer.fill_cap _ _ (by simp [htag, hc1]; omega), hc1]
  have hr2 : (buf1.fill (tag ++ payload)).Value ++ (buf1.fill (tag ++ payload)).spare
      = tag ++ payload ++ (buffer.Value ++ buffer.spare).drop (payload.length + 10) := by
    rw [Buffer.fill_region, hr1]
    have : (tag ++ payload).length = (payload.length + 8) + 1 + 1 := by simp [htag]; omega
    rw [this, List.drop_succ_cons, List.drop_succ_cons, List.drop_drop]
    congr 2
    omega
  set buf2 := buf1.fill (tag ++ payload) with hbuf2
  have hsl : buf2.Slice 0 (payload.length + 10)
      = some { front := buffer.front, Value := tag ++ payload
               spare := (buffer.Value ++ buffer.spare).drop (payload.length + 10) } := by
    have hl : (tag ++ payload).length = payload.length + 10 := by simp [htag]; omega
    simp only [Buffer.Slice, hc2, hcap, Nat.zero_le, and_self, if_true, hr2, List.take_zero,
      List.append_nil, List.drop_zero]
    rw [← hl, List.take_left, List.drop_left]
    simp [hbuf2, hbuf1, Buffer.fill_front]
  have hup0 : buffer.upTo 2 = some ((buffer.Value ++ buffer.spare).take 2) := by
    simp [Buffer.upTo, h2]
  have hL : (BytesToUint16 [b0, b1] + AuthSize) % 65536 = payload.length + 10 := by
    simpa [BytesToUint16_pair, AuthSize] using hlen
  have hupL : buf1.upTo (payload.length + 10)
      = some ((buf1.Value ++ buf1.spare).take (payload.length + 10)) := by
    simp [Buffer.upTo, hc1, hcap]
  have hupA : ({ front := buffer.front, Value := tag ++ payload
                 spare := (buffer.Value ++ buffer.spare).drop (payload.length + 10) } :
      Buffer).upTo AuthSize = some tag := by
    simp only [Buffer.upTo, Buffer.cap, AuthSize, List.length_append, htag]
    rw [if_pos (by omega), List.append_assoc, ← htag, List.take_left]
  have hfrA : ({ front := buffer.front, Value := tag ++ payload
                 spare := (buffer.Value ++ buffer.spare).drop (payload.length + 10) } :
      Buffer).fromIndex AuthSize = some payload := by
    simp only [Buffer.fromIndex, AuthSize, List.length_append, htag]
    rw [if_pos (by omega), ← htag, List.drop_left]
  have hsfA : ({ front := buffer.front, Value := tag ++ payload
                 spare := (buffer.Value ++ buffer.spare).drop (payload.length + 10) } :
      Buffer).SliceFrom AuthSize
      = some { front := buffer.front ++ tag, Value := payload
               spare := (buffer.Value ++ buffer.spare).drop (payload.length + 10) } := by
    simp only [Buffer.SliceFrom, AuthSize, List.length_append, htag]
    rw [if_pos (by omega), ← htag, List.drop_left, List.take_left]
  unfold ChunkReader.Read
  simp only [hup0, hrf1, ← hbuf1, hup1, Option.getD_some, hL, hupL, hrf2, ← hbuf2, hsl, hupA,
    hfrA, hsfA, ChunkReader.checked]


theorem Write_eq {ω σ : Type} (this : ChunkWriter ω σ) (payload : Buffer)
    (hroom : 12 ≤ payload.front.length) :
    this.Write payload =
      some ((this.writer.write this.writer.st (wireUnit this.auth payload.Value)).1,
        { writer := { this.writer with
            st := (this.writer.write this.writer.st (wireUnit this.auth payload.Value)).2 }
          auth := (this.auth.Authenticate [] payload.Value).2 },
        { front := payload.front.take (payload.front.length - 12)
          Value := wireUnit this.auth payload.Value
          spare := payload.spare }) := by
  have h10 := Authenticate_nil_length this.auth payload.Value
  have hp1 : payload.Prepend (this.auth.Authenticate [] payload.Bytes).1
      = some { front := payload.front.take (payload.front.length - 10)
               Value := (this.auth.Authenticate [] payload.Value).1 ++ payload.Value
               spare := payload.spare } := by
    simp only [Buffer.Prepend, Buffer.Bytes, h10]
    rw [if_pos (by omega)]
  have hp2 : ({ front := payload.front.take (payload.front.length - 10)
                Value := (this.auth.Authenticate [] payload.Value).1 ++ payload.Value
                spare := payload.spare } : Buffer).PrependUint16 (payload.Len % 65536)
      = some { front := payload.front.take (payload.front.length - 12)
               Value := wireUnit this.auth payload.Value
               spare := payload.spare } := by
    simp only [Buffer.PrependUint16, Buffer.Prepend, Uint16ToBytes, List.length_cons,
      List.length_nil, List.length_take, Buffer.Len, wireUnit]
    rw [if_pos (by omega), List.take_take]
    have : min (min (payload.front.length - 10) payload.front.length - (0 + 1 + 1))
        (payload.front.length - 10) = payload.front.length - 12 := by omega
    rw [this]
  simp only [Buffer.Bytes] at hp1
  unfold ChunkWriter.Write
  simp only [Buffer.Bytes, hp1, hp2]


theorem call_after {σ : Type} (g : KeyGenerator σ) (n : Nat) :
    (g.after n).call.2 = g.after (n + 1) := rfl

theorem ChunkKeyGenerator_after (iv : List Byte) (n : Nat) :
    (ChunkKeyGenerator iv).after n = { ChunkKeyGenerator iv with env := n } := by
  induction n with
  | zero => rfl
  | succ k ih => simp only [KeyGenerator.after, ih]; rfl

theorem ChunkKeyGenerator_after_env (iv : List Byte) (n : Nat) :
    ((ChunkKeyGenerator iv).after n).env = n := by
  rw [ChunkKeyGenerator_after]

theorem toByte_val (n : Nat) : (toByte n).val = n % 256 := rfl

theorem BytesToUint16_Uint16ToBytes (v : Nat) (l : List Byte) :
    BytesToUint16 (Uint16ToBytes v ++ l) = v % 65536 := by
  simp only [Uint16ToBytes, List.cons_append, List.nil_append, BytesToUint16_pair, toByte_val,
    Nat.shiftRight_eq_div_pow]
  omega

theorem wireUnit_length {σ : Type} (a : Authenticator σ) (P : List Byte) :
    (wireUnit a P).length = P.length + 12 := by
  simp [wireUnit, Uint16ToBytes, Authenticate_nil_length]
  omega

/-- Reading one wire unit back with the key state it was written under. -/
theorem Read_wireUnit {σ : Type} (this : ChunkReader σ) (buffer : Buffer) (P rest : List Byte)
    (hdata : this.reader.data = wireUnit this.auth P ++ rest)
    (hlen : P.length + 10 < 65536)
    (hcap : P.length + 10 ≤ buffer.cap) :
    this.Read buffer =
      (.ok { front := buffer.front ++ (this.auth.Authenticate [] P).1, Value := P
             spare := (buffer.Value ++ buffer.spare).drop (P.length + 10) },
       this.checked P rest) := by
  have h := Read_chunk this buffer (toByte ((P.length % 65536) >>> 8)) (toByte (P.length % 65536))
    (this.auth.Authenticate [] P).1 P rest
    (by rw [hdata]; simp [wireUnit, Uint16ToBytes])
    (Authenticate_nil_length _ _)
    (by
      simp only [toByte_val, Nat.shiftRight_eq_div_pow]
      omega)
    hcap
  rw [h, if_neg (by simp)]


theorem sink_st {σ : Type} (a : Authenticator σ) (sent : List Byte) :
    (NewChunkWriter (Writer.sink sent) a).writer.st = sent := rfl

theorem sink_auth {σ : Type} (a : Authenticator σ) (sent : List Byte) :
    (NewChunkWriter (Writer.sink sent) a).auth = a := rfl

theorem reader_data {σ : Type} (a : Authenticator σ) (d : List Byte) (f : Error) :
    (NewChunkReader { data := d, fail := f } a).reader.data = d := rfl

theorem reader_auth {σ : Type} (a : Authenticator σ) (r : Reader) :
    (NewChunkReader r a).auth = a := rfl

/-- What `Write` does on a stream that keeps all it is given. -/
theorem Write_sink {σ : Type} (a : Authenticator σ) (sent : List Byte) (payload : Buffer)
    (hroom : 12 ≤ payload.front.length) :
    (NewChunkWriter (Writer.sink sent) a).Write payload =
      some ((payload.Len + 12, none),
        NewChunkWriter (Writer.sink (sent ++ wireUnit a payload.Value))
          (a.Authenticate [] payload.Value).2,
        { front := payload.front.take (payload.front.length - 12)
          Value := wireUnit a payload.Value
          spare := payload.spare }) := by
  rw [Write_eq _ _ hroom]
  simp only [NewChunkWriter, Writer.sink, wireUnit_length, Buffer.Len]

/-- Reading back what `Write` gave to such a stream, in the writer's key state. -/
theorem Read_written {σ : Type} (a a' : Authenticator σ) (payload buffer : Buffer)
    (rest : List Byte) (fail : Error)
    (hlen : payload.Value.length + 10 < 65536)
    (hcap : payload.Value.length + 10 ≤ buffer.cap) :
    (NewChunkReader
        { data := (NewChunkWriter (Writer.sink ([] ++ wireUnit a payload.Value)) a').writer.st
            ++ rest, fail := fail } a).Read buffer =
      (.ok { front := buffer.front ++ (a.Authenticate [] payload.Value).1
             Value := payload.Value
             spare := (buffer.Value ++ buffer.spare).drop (payload.Value.length + 10) },
       (NewChunkReader
        { data := (NewChunkWriter (Writer.sink ([] ++ wireUnit a payload.Value)) a').writer.st
            ++ rest, fail := fail } a).checked payload.Value rest) :=
  Read_wireUnit _ buffer payload.Value rest
    (by rw [reader_data, reader_auth, sink_st, List.nil_append]) hlen hcap

theorem checked_auth {σ : Type} (r : ChunkReader σ) (P rest : List Byte) :
    (r.checked P rest).auth = (r.auth.Authenticate [] P).2 := rfl

theorem Authenticate_after_env (iv P : List Byte) (n : Nat) :
    ((NewAuthenticator ((ChunkKeyGenerator iv).after n)).Authenticate [] P).2.key.env
      = n + 1 := by
  rw [Authenticate_snd]
  show ((ChunkKeyGenerator iv).after n).call.2.env = n + 1
  rw [call_after, ChunkKeyGenerator_after_env]

theorem wireUnit_cons {σ : Type} (a : Authenticator σ) (P : List Byte) :
    wireUnit a P = toByte ((P.length % 65536) >>> 8) :: toByte (P.length % 65536)
      :: ((a.Authenticate [] P).1 ++ P) := rfl

theorem header_decodes (n : Nat) (h : n + 10 < 65536) :
    ((toByte ((n % 65536) >>> 8)).val * 256 + (toByte (n % 65536)).val + 10) % 65536
      = n + 10 := by
  simp only [toByte_val, Nat.shiftRight_eq_div_pow]
  omega

theorem mk_Value (f v s : List Byte) : (Buffer.mk f v s).Value = v := rfl

theorem mk_front (f v s : List Byte) : (Buffer.mk f v s).front = f := rfl

theorem mk_cap (f v s : List Byte) : (Buffer.mk f v s).cap = v.length + s.length := rfl

/-- C1. Single-chunk round trip: a payload buffer (with the headroom `Prepend` requires)
whose length plus the 10-byte tag fits the reader's buffer is written by a `ChunkWriter`
and read by a `ChunkReader` whose chunk key generators were built from the same IV and
have both been invoked `n` times. `Write` succeeds, `Read` on the bytes it emitted returns
exactly the payload with no error, and each side's chunk counter goes from `n` to `n + 1`.
The reader's buffer is the one `alloc.NewLargeBuffer` hands out, a 64K block less its
headroom, so of capacity below 65536. -/
theorem roundtrip_single (iv rest : List Byte) (n : Nat) (payload buffer : Buffer) (fail : Error)
    (hroom : 12 ≤ payload.front.length)
    (hcap : buffer.cap ≤ 65535)
    (hfit : payload.Len + AuthSize ≤ buffer.cap) :
    ∃ w' payload' out r',
      (NewChunkWriter (Writer.sink []) (NewAuthenticator ((ChunkKeyGenerator iv).after n))).Write
          payload = some ((payload.Len + 12, none), w', payload') ∧
      (NewChunkReader { data := w'.writer.st ++ rest, fail := fail }
          (NewAuthenticator ((ChunkKeyGenerator iv).after n))).Read buffer = (.ok out, r') ∧
      out.Bytes = payload.Bytes ∧
      ((ChunkKeyGenerator iv).after n).env = n ∧
      w'.auth.key.env = n + 1 ∧ r'.auth.key.env = n + 1 := by
  simp only [Buffer.Len, AuthSize] at hfit
  refine ⟨_, _, _, _, Write_sink _ [] payload hroom,
    Read_written _ _ payload buffer rest fail (by omega) hfit, rfl,
    ChunkKeyGenerator_after_env iv n, ?_, ?_⟩
  · rw [sink_auth, Authenticate_after_env]
  · rw [checked_auth, reader_auth, Authenticate_after_env]

theorem roundtrip_single_witness :
    12 ≤ samplePayload.front.length ∧ sampleBuffer.cap ≤ 65535 ∧
    samplePayload.Len + AuthSize ≤ sampleBuffer.cap ∧
    ∃ w' payload' out r',
      (NewChunkWriter (Writer.sink []) (NewAuthenticator ((ChunkKeyGenerator [1, 2, 3]).after 2))).Write
          samplePayload = some ((samplePayload.Len + 12, none), w', payload') ∧
      (NewChunkReader { data := w'.writer.st ++ [], fail := Error.EOF }
          (NewAuthenticator ((ChunkKeyGenerator [1, 2, 3]).after 2))).Read sampleBuffer
        = (.ok out, r') ∧
      out.Bytes = samplePayload.Bytes ∧
      ((ChunkKeyGenerator [1, 2, 3]).after 2).env = 2 ∧
      w'.auth.key.env = 2 + 1 ∧ r'.auth.key.env = 2 + 1 :=
  ⟨by decide, by decide, by decide,
    roundtrip_single [1, 2, 3] [] 2 samplePayload sampleBuffer Error.EOF
      (by decide) (by decide) (by decide)⟩

/-- C2. Fail closed: the stream supplies two length bytes `b0 b1` (rawLen big-endian, with
rawLen + 10 within the buffer capacity) and then at least rawLen + 10 bytes `follow`. `Read`
returns a payload if and only if the 10 received tag bytes equal the tag the Authenticator
computes, under the reader's current key, over the rawLen bytes that follow the tag; when
they are equal the returned buffer holds exactly those rawLen bytes, and when they differ,
at whichever of the 10 positions, `Read` returns `transport.ErrCorruptedPacket`. The buffer
is the one `alloc.NewLargeBuffer` hands out, of capacity below 65536. -/
theorem fail_closed {σ : Type} (this : ChunkReader σ) (buffer : Buffer) (b0 b1 : Byte)
    (follow : List Byte)
    (hdata : this.reader.data = b0 :: b1 :: follow)
    (hcap : buffer.cap ≤ 65535)
    (hfit : BytesToUint16 [b0, b1] + AuthSize ≤ buffer.cap)
    (hfollow : BytesToUint16 [b0, b1] + AuthSize ≤ follow.length) :
    ((∃ out, (this.Read buffer).1 = .ok out) ↔
      follow.take AuthSize = (this.auth.Authenticate []
        ((follow.drop AuthSize).take (BytesToUint16 [b0, b1]))).1) ∧
    (follow.take AuthSize = (this.auth.Authenticate []
        ((follow.drop AuthSize).take (BytesToUint16 [b0, b1]))).1 →
      ∃ out, (this.Read buffer).1 = .ok out ∧
        out.Bytes = (follow.drop AuthSize).take (BytesToUint16 [b0, b1]) ∧
        out.Len = BytesToUint16 [b0, b1]) ∧
    ((∃ i, i < AuthSize ∧ (follow.take AuthSize)[i]? ≠ (this.auth.Authenticate []
        ((follow.drop AuthSize).take (BytesToUint16 [b0, b1]))).1[i]?) →
      (this.Read buffer).1 = .error Error.ErrCorruptedPacket) := by
  simp only [BytesToUint16_pair, AuthSize] at hfit hfollow ⊢
  set rawLen := b0.val * 256 + b1.val with hraw
  have hsplit : follow = follow.take 10 ++ (follow.drop 10).take rawLen
      ++ (follow.drop 10).drop rawLen := by
    rw [List.append_assoc, List.take_append_drop, List.take_append_drop]
  have hlp : ((follow.drop 10).take rawLen).length = rawLen := by
    rw [List.length_take, List.length_drop]; omega
  have h := Read_chunk this buffer b0 b1 (follow.take 10) ((follow.drop 10).take rawLen)
    ((follow.drop 10).drop rawLen) (by rw [hdata, ← hsplit])
    (by rw [List.length_take]; omega) (by rw [hlp, ← hraw]; omega) (by rw [hlp]; exact hfit)
  by_cases heq : follow.take 10
      = (this.auth.Authenticate [] ((follow.drop 10).take rawLen)).1
  · rw [if_neg (by simpa using heq)] at h
    rw [h]
    refine ⟨⟨fun _ => heq, fun _ => ⟨_, rfl⟩⟩, fun _ => ⟨_, rfl, rfl, hlp⟩, ?_⟩
    rintro ⟨i, _, hi⟩
    exact absurd (by rw [heq]) hi
  · rw [if_pos heq] at h
    rw [h]
    refine ⟨⟨?_, fun h' => absurd h' heq⟩, fun h' => absurd h' heq, fun _ => rfl⟩
    rintro ⟨out, hout⟩
    cases hout


theorem fail_closed_witness :
    (NewChunkReader { data := 0 :: 1 :: List.replicate 11 0, fail := Error.EOF }
        (NewAuthenticator (ChunkKeyGenerator [1, 2, 3]))).reader.data
      = 0 :: 1 :: List.replicate 11 0 ∧
    sampleBuffer.cap ≤ 65535 ∧
    BytesToUint16 [0, 1] + AuthSize ≤ sampleBuffer.cap ∧
    BytesToUint16 [0, 1] + AuthSize ≤ (List.replicate 11 (0 : Byte)).length ∧
    (((∃ out, ((NewChunkReader { data := 0 :: 1 :: List.replicate 11 0, fail := Error.EOF }
          (NewAuthenticator (ChunkKeyGenerator [1, 2, 3]))).Read sampleBuffer).1 = .ok out) ↔
      (List.replicate 11 (0 : Byte)).take AuthSize
        = ((NewAuthenticator (ChunkKeyGenerator [1, 2, 3])).Authenticate []
            (((List.replicate 11 (0 : Byte)).drop AuthSize).take (BytesToUint16 [0, 1]))).1) ∧
    ((List.replicate 11 (0 : Byte)).take AuthSize
        = ((NewAuthenticator (ChunkKeyGenerator [1, 2, 3])).Authenticate []
            (((List.replicate 11 (0 : Byte)).drop AuthSize).take (BytesToUint16 [0, 1]))).1 →
      ∃ out, ((NewChunkReader { data := 0 :: 1 :: List.replicate 11 0, fail := Error.EOF }
          (NewAuthenticator (ChunkKeyGenerator [1, 2, 3]))).Read sampleBuffer).1 = .ok out ∧
        out.Bytes = ((List.replicate 11 (0 : Byte)).drop AuthSize).take (BytesToUint16 [0, 1]) ∧
        out.Len = BytesToUint16 [0, 1]) ∧
    ((∃ i, i < AuthSize ∧ ((List.replicate 11 (0 : Byte)).take AuthSize)[i]?
        ≠ ((NewAuthenticator (ChunkKeyGenerator [1, 2, 3])).Authenticate []
            (((List.replicate 11 (0 : Byte)).drop AuthSize).take (BytesToUint16 [0, 1]))).1[i]?) →
      ((NewChunkReader { data := 0 :: 1 :: List.replicate 11 0, fail := Error.EOF }
          (NewAuthenticator (ChunkKeyGenerator [1, 2, 3]))).Read sampleBuffer).1
        = .error Error.ErrCorruptedPacket)) :=
  ⟨rfl, by decide, by decide, by decide,
    fail_closed (NewChunkReader { data := 0 :: 1 :: List.replicate 11 0, fail := Error.EOF }
        (NewAuthenticator (ChunkKeyGenerator [1, 2, 3]))) sampleBuffer 0 1 (List.replicate 11 0)
      rfl (by decide) (by decide) (by decide)⟩

theorem ReadFull_two (b0 b1 : Byte) (follow : List Byte) (f : Error) :
    ReadFull { data := b0 :: b1 :: follow, fail := f } 2
      = (.ok [b0, b1], { data := follow, fail := f }) :=
  ReadFull_append [b0, b1] follow f

theorem upTo_fill_two (buffer : Buffer) (b0 b1 : Byte) (h2 : 2 ≤ buffer.cap) :
    (buffer.fill [b0, b1]).upTo 2 = some [b0, b1] := by
  have hc1 : (buffer.fill [b0, b1]).cap = buffer.cap := Buffer.fill_cap _ _ (by simpa using h2)
  have hr1 : (buffer.fill [b0, b1]).Value ++ (buffer.fill [b0, b1]).spare
      = b0 :: b1 :: (buffer.Value ++ buffer.spare).drop 2 := by
    simpa using Buffer.fill_region buffer [b0, b1]
  simp [Buffer.upTo, hc1, h2, hr1]

/-- A declared length beyond the capacity: the slice expression `buffer.Value[:length]`
panics. -/
theorem Read_panic_of_cap_lt {σ : Type} (this : ChunkReader σ) (buffer : Buffer) (b0 b1 : Byte)
    (follow : List Byte)
    (hdata : this.reader.data = b0 :: b1 :: follow)
    (hover : buffer.cap < (BytesToUint16 [b0, b1] + AuthSize) % 65536) :
    (this.Read buffer).1 = .panic := by
  obtain ⟨⟨data, fail⟩, auth⟩ := this
  simp only at hdata
  subst hdata
  unfold ChunkReader.Read
  by_cases h2 : 2 ≤ buffer.cap
  · have hup0 : buffer.upTo 2 = some ((buffer.Value ++ buffer.spare).take 2) := by
      simp [Buffer.upTo, h2]
    have hc1 : (buffer.fill [b0, b1]).cap = buffer.cap :=
      Buffer.fill_cap _ _ (by simpa using h2)
    have hupL : (buffer.fill [b0, b1]).upTo ((BytesToUint16 [b0, b1] + AuthSize) % 65536)
        = none := by
      simp only [Buffer.upTo, hc1]
      rw [if_neg (by omega)]
    simp only [hup0, ReadFull_two, upTo_fill_two buffer b0 b1 h2, Option.getD_some, hupL]
  · have hup0 : buffer.upTo 2 = none := by
      simp only [Buffer.upTo]
      rw [if_neg h2]
    simp only [hup0]

/-- A declared length that wraps around to less than the tag size: after the follow-on
bytes are read the slice expression `buffer.Value[AuthSize:]` panics. -/
theorem Read_panic_of_wrap {σ : Type} (this : ChunkReader σ) (buffer : Buffer) (b0 b1 : Byte)
    (body rest : List Byte)
    (hdata : this.reader.data = b0 :: b1 :: (body ++ rest))
    (hbody : body.length = (BytesToUint16 [b0, b1] + AuthSize) % 65536)
    (hwrap : (BytesToUint16 [b0, b1] + AuthSize) % 65536 < AuthSize) :
    (this.Read buffer).1 = .panic := by
  by_cases hc : buffer.cap < (BytesToUint16 [b0, b1] + AuthSize) % 65536
  · exact Read_panic_of_cap_lt this buffer b0 b1 _ hdata hc
  by_cases h2 : 2 ≤ buffer.cap
  swap
  · unfold ChunkReader.Read
    have hup0 : buffer.upTo 2 = none := by
      simp only [Buffer.upTo]
      rw [if_neg h2]
    simp only [hup0]
  obtain ⟨⟨data, fail⟩, auth⟩ := this
  simp only at hdata
  subst hdata
  have hup0 : buffer.upTo 2 = some ((buffer.Value ++ buffer.spare).take 2) := by
    simp [Buffer.upTo, h2]
  have hc1 : (buffer.fill [b0, b1]).cap = buffer.cap :=
    Buffer.fill_cap _ _ (by simpa using h2)
  have hupL : (buffer.fill [b0, b1]).upTo body.length
      = some (((buffer.fill [b0, b1]).Value ++ (buffer.fill [b0, b1]).spare).take body.length) := by
    simp only [Buffer.upTo, hc1]
    rw [if_pos (by omega)]
  have hc2 : ((buffer.fill [b0, b1]).fill body).cap = buffer.cap := by
    rw [Buffer.fill_cap _ _ (by rw [hc1]; omega), hc1]
  have hrf2 : ReadFull { data := body ++ rest, fail := fail } body.length
      = (.ok body, { data := rest, fail := fail }) := ReadFull_append body rest fail
  unfold ChunkReader.Read
  simp only [hup0, ReadFull_two, upTo_fill_two buffer b0 b1 h2, Option.getD_some, ← hbody, hupL,
    hrf2]
  simp only [Buffer.Slice, hc2, Nat.zero_le, true_and]
  rw [if_pos (by omega)]
  simp only [Buffer.upTo, Buffer.fromIndex, List.take_zero, List.append_nil, List.drop_zero,
    List.length_take, Buffer.fill_region]
  split
  · rfl
  · rename_i authBytes heq
    rw [if_neg (by simp only [List.length_append, List.length_drop]; omega)]


/-- C3. Length-overflow rejection fails on the code. A stream that declares
rawLen = 65520 (bytes FF F0), read into a buffer of capacity 65520, makes
chunkLen = 65530 larger than the capacity; `Read` has no size check and no size-exceeded
error, and ends in a run-time panic at `buffer.Value[:length]`. A stream that declares
rawLen = 65534 (bytes FF FE) makes chunkLen = 65544 larger than any capacity up to 65543;
the `uint16` sum wraps around to 8, `Read` reads 8 follow-on bytes and then ends in a
run-time panic, whatever the buffer. -/
theorem Read_oversize_panics {σ : Type} (auth : Authenticator σ) (front rest : List Byte)
    (fail : Error) (buffer : Buffer) (c0 c1 c2 c3 c4 c5 c6 c7 : Byte) :
    ((NewChunkReader { data := [255, 240] ++ rest, fail := fail } auth).Read
      { front := front, Value := List.replicate 65520 0, spare := [] }).1 = Outcome.panic ∧
    ((NewChunkReader { data := [255, 254, c0, c1, c2, c3, c4, c5, c6, c7] ++ rest, fail := fail }
      auth).Read buffer).1 = Outcome.panic := by
  constructor
  · apply Read_panic_of_cap_lt _ _ 255 240 rest rfl
    rw [mk_cap, List.length_replicate, List.length_nil]
    decide
  · exact Read_panic_of_wrap _ buffer 255 254 [c0, c1, c2, c3, c4, c5, c6, c7] rest rfl
      (show 8 = (BytesToUint16 [255, 254] + AuthSize) % 65536 by decide) (by decide)

/-- C4. Bounds safety fails on the code: for the declared length rawLen = 65535 (bytes
FF FF) the `uint16` sum rawLen + 10 wraps around to 9; whatever buffer `Read` acquired,
once 9 more bytes have come it ends in a run-time panic, at the latest at the slice
expression `buffer.Value[AuthSize:]` of a 9-byte valid range. -/
theorem Read_wrapped_length_panics {σ : Type} (auth : Authenticator σ) (buffer : Buffer)
    (c0 c1 c2 c3 c4 c5 c6 c7 c8 : Byte) (rest : List Byte) (fail : Error) :
    ((NewChunkReader
        { data := [255, 255, c0, c1, c2, c3, c4, c5, c6, c7, c8] ++ rest, fail := fail }
        auth).Read buffer).1 = Outcome.panic :=
  Read_panic_of_wrap _ buffer 255 255 [c0, c1, c2, c3, c4, c5, c6, c7, c8] rest rfl
    (show 9 = (BytesToUint16 [255, 255] + AuthSize) % 65536 by decide) (by decide)

theorem writeAll_sink {σ : Type} (ps : List Buffer) (w : ChunkWriter (List Byte) σ)
    (hw : w.writer.write = (Writer.sink []).write)
    (hroom : ∀ p ∈ ps, 12 ≤ p.front.length) :
    ∃ w', writeAll ps w = some w' ∧
      w'.writer.st = w.writer.st ++ wireUnits (ps.map Buffer.Bytes) w.auth := by
  induction ps generalizing w with
  | nil => exact ⟨w, rfl, by simp [wireUnits]⟩
  | cons p ps ih =>
    have hp := Write_eq w p (hroom p (List.mem_cons_self _ _))
    obtain ⟨w', h1, h2⟩ := ih
      { writer := { w.writer with
          st := (w.writer.write w.writer.st (wireUnit w.auth p.Value)).2 }
        auth := (w.auth.Authenticate [] p.Value).2 }
      hw (fun q hq => hroom q (List.mem_cons_of_mem _ hq))
    refine ⟨w', ?_, ?_⟩
    · simp only [writeAll, hp]
      exact h1
    · rw [h2]
      simp only [hw, Writer.sink, List.map_cons, wireUnits, Buffer.Bytes, List.append_assoc]

theorem readAll_wireUnits {σ : Type} (Ps : List (List Byte)) (buffers : List Buffer)
    (r : ChunkReader σ) (rest : List Byte)
    (hdata : r.reader.data = wireUnits Ps r.auth ++ rest)
    (hn : buffers.length = Ps.length)
    (hcap : ∀ b ∈ buffers, b.cap ≤ 65535)
    (hfit : ∀ P ∈ Ps, ∀ b ∈ buffers, P.length + 10 ≤ b.cap) :
    (readAll buffers r).map (fun o => (o.1.map Buffer.Bytes, o.2))
      = Ps.map (fun P => (Outcome.ok P, P.length + 12)) := by
  induction Ps generalizing buffers r with
  | nil =>
    cases buffers with
    | nil => rfl
    | cons b bs => simp at hn
  | cons P Ps ih =>
    cases buffers with
    | nil => simp at hn
    | cons b bs =>
      have hPb := hfit P (List.mem_cons_self _ _) b (List.mem_cons_self _ _)
      have hb := hcap b (List.mem_cons_self _ _)
      have hrd := Read_wireUnit r b P (wireUnits Ps (r.auth.Authenticate [] P).2 ++ rest)
        (by rw [hdata]; simp only [wireUnits, List.append_assoc]) (by omega) hPb
      have ih' := ih bs (r.checked P (wireUnits Ps (r.auth.Authenticate [] P).2 ++ rest)) rfl
        (by simpa using hn) (fun b' hb' => hcap b' (List.mem_cons_of_mem _ hb'))
        (fun Q hQ b' hb' => hfit Q (List.mem_cons_of_mem _ hQ) b' (List.mem_cons_of_mem _ hb'))
      simp only [readAll, hrd, List.map_cons]
      rw [ih']
      congr 1
      simp only [Outcome.map, Buffer.Bytes, Prod.mk.injEq, true_and]
      rw [hdata]
      simp only [ChunkReader.checked, wireUnits, List.length_append, wireUnit_length]
      omega

/-- C5. In-order multi-chunk round trip: payloads P1..Pn, each fitting the reader's
buffers and held in buffers with the headroom `Prepend` requires, are written in that order
by one `ChunkWriter` whose chunk key generator starts at counter 0. Then n successive
`Read` calls on the concatenation of the written bytes, by a reader whose chunk key
generator was built from the same IV and starts at 0, return P1..Pn in that order with no
error, and the i-th call consumes exactly len(Pi) + 12 bytes. The readers' buffers are
those `alloc.NewLargeBuffer` hands out, of capacity below 65536. -/
theorem roundtrip_in_order (iv rest : List Byte) (payloads buffers : List Buffer) (fail : Error)
    (hroom : ∀ p ∈ payloads, 12 ≤ p.front.length)
    (hn : buffers.length = payloads.length)
    (hcap : ∀ b ∈ buffers, b.cap ≤ 65535)
    (hfit : ∀ p ∈ payloads, ∀ b ∈ buffers, p.Len + AuthSize ≤ b.cap) :
    ∃ w',
      writeAll payloads
          (NewChunkWriter (Writer.sink []) (NewAuthenticator (ChunkKeyGenerator iv))) = some w' ∧
      (readAll buffers
          (NewChunkReader { data := w'.writer.st ++ rest, fail := fail }
            (NewAuthenticator (ChunkKeyGenerator iv)))).map
          (fun o => (o.1.map Buffer.Bytes, o.2))
        = payloads.map (fun p => (Outcome.ok p.Bytes, p.Len + 12)) := by
  obtain ⟨w', h1, h2⟩ := writeAll_sink payloads
    (NewChunkWriter (Writer.sink []) (NewAuthenticator (ChunkKeyGenerator iv))) rfl hroom
  refine ⟨w', h1, ?_⟩
  have h := readAll_wireUnits (payloads.map Buffer.Bytes) buffers
    (NewChunkReader { data := w'.writer.st ++ rest, fail := fail }
      (NewAuthenticator (ChunkKeyGenerator iv))) rest
    (by rw [h2]; simp [NewChunkReader, NewChunkWriter, Writer.sink])
    (by simpa using hn) hcap
    (by
      intro P hP b hb
      obtain ⟨p, hp, rfl⟩ := List.mem_map.1 hP
      exact hfit p hp b hb)
  rw [h, List.map_map]
  rfl

theorem roundtrip_in_order_witness :
    (∀ p ∈ [samplePayload, samplePayload], 12 ≤ p.front.length) ∧
    [sampleBuffer, sampleBuffer].length = [samplePayload, samplePayload].length ∧
    (∀ b ∈ [sampleBuffer, sampleBuffer], b.cap ≤ 65535) ∧
    (∀ p ∈ [samplePayload, samplePayload], ∀ b ∈ [sampleBuffer, sampleBuffer],
      p.Len + AuthSize ≤ b.cap) ∧
    ∃ w',
      writeAll [samplePayload, samplePayload]
          (NewChunkWriter (Writer.sink []) (NewAuthenticator (ChunkKeyGenerator [1, 2, 3])))
        = some w' ∧
      (readAll [sampleBuffer, sampleBuffer]
          (NewChunkReader { data := w'.writer.st ++ [], fail := Error.EOF }
            (NewAuthenticator (ChunkKeyGenerator [1, 2, 3])))).map
          (fun o => (o.1.map Buffer.Bytes, o.2))
        = [samplePayload, samplePayload].map (fun p => (Outcome.ok p.Bytes, p.Len + 12)) :=
  ⟨by decide, by decide, by decide, by decide,
    roundtrip_in_order [1, 2, 3] [] [samplePayload, samplePayload] [sampleBuffer, sampleBuffer]
      Error.EOF (by decide) (by decide) (by decide) (by decide)⟩

theorem flipBit_ne (b : Byte) (k : Nat) : flipBit b k ≠ b := by
  have key : ∀ (b : Fin 256) (k : Fin 8), toByte (b.val ^^^ 2 ^ k.val) ≠ b := by decide!
  exact key b ⟨k % 8, Nat.mod_lt k (by decide)⟩

theorem flipBitAt_length (l : List Byte) (pos : Nat) : (flipBitAt l pos).length = l.length := by
  induction l generalizing pos with
  | nil => rfl
  | cons b bs ih =>
    simp only [flipBitAt]
    split <;> simp [ih]

theorem flipBitAt_ne (l : List Byte) (pos : Nat) (h : pos < 8 * l.length) :
    flipBitAt l pos ≠ l := by
  induction l generalizing pos with
  | nil => simp at h
  | cons b bs ih =>
    simp only [flipBitAt]
    split
    · intro heq
      exact flipBit_ne b pos (List.cons.inj heq).1
    · intro heq
      exact ih (pos - 8) (by simp only [List.length_cons] at h; omega) (List.cons.inj heq).2

theorem flipBitAt_append_left (a b : List Byte) (pos : Nat) (h : pos < 8 * a.length) :
    flipBitAt (a ++ b) pos = flipBitAt a pos ++ b := by
  induction a generalizing pos with
  | nil => simp at h
  | cons x xs ih =>
    simp only [List.cons_append, flipBitAt]
    split
    · rfl
    · exact congrArg (x :: ·) (ih (pos - 8) (by simp only [List.length_cons] at h; omega))

theorem flipBitAt_append_right (a b : List Byte) (pos : Nat) (h : 8 * a.length ≤ pos) :
    flipBitAt (a ++ b) pos = a ++ flipBitAt b (pos - 8 * a.length) := by
  induction a generalizing pos with
  | nil => simp
  | cons x xs ih =>
    simp only [List.length_cons] at h
    have ih' := ih (pos - 8) (by omega)
    have hs : pos - 8 - 8 * xs.length = pos - 8 * (x :: xs).length := by
      simp only [List.length_cons]
      omega
    rw [hs] at ih'
    simp only [List.cons_append, flipBitAt]
    rw [if_neg (by omega)]
    exact congrArg (x :: ·) ih'

/-- C6. Tamper detection in the tag: the unit `Write` emits for a payload that fits the
reader's buffer has the tag in its bytes 2 to 11, bit positions 16 to 95. With any one of
these bits inverted before the bytes reach a reader in the same key state as the writer,
`Read` returns the corrupted-packet error, and so no payload. -/
theorem tag_tamper_detected {σ : Type} (a : Authenticator σ) (payload buffer : Buffer)
    (rest : List Byte) (fail : Error) (pos : Nat)
    (hroom : 12 ≤ payload.front.length)
    (hcap : buffer.cap ≤ 65535)
    (hfit : payload.Len + AuthSize ≤ buffer.cap)
    (hlo : 16 ≤ pos) (hhi : pos < 96) :
    ∃ res w' payload',
      (NewChunkWriter (Writer.sink []) a).Write payload = some (res, w', payload') ∧
      ((NewChunkReader { data := flipBitAt w'.writer.st pos ++ rest, fail := fail } a).Read
        buffer).1 = .error Error.ErrCorruptedPacket := by
  simp only [Buffer.Len, AuthSize] at hfit
  have h10 := Authenticate_nil_length a payload.Value
  refine ⟨_, _, _, Write_sink a [] payload hroom, ?_⟩
  have hflip : flipBitAt (wireUnit a payload.Value) pos
      = toByte ((payload.Value.length % 65536) >>> 8) :: toByte (payload.Value.length % 65536)
        :: (flipBitAt (a.Authenticate [] payload.Value).1 (pos - 16) ++ payload.Value) := by
    rw [wireUnit_cons]
    have h1 := flipBitAt_append_right
      [toByte ((payload.Value.length % 65536) >>> 8), toByte (payload.Value.length % 65536)]
      ((a.Authenticate [] payload.Value).1 ++ payload.Value) pos (by simp; omega)
    have h2 := flipBitAt_append_left (a.Authenticate [] payload.Value).1 payload.Value
      (pos - 16) (by rw [h10]; omega)
    rw [show pos - 8 * [toByte ((payload.Value.length % 65536) >>> 8),
      toByte (payload.Value.length % 65536)].length = pos - 16 from rfl, h2] at h1
    exact h1
  rw [sink_st, List.nil_append, Read_chunk _ buffer
    (toByte ((payload.Value.length % 65536) >>> 8)) (toByte (payload.Value.length % 65536))
    (flipBitAt (a.Authenticate [] payload.Value).1 (pos - 16)) payload.Value rest
    (by rw [reader_data, hflip]; rfl)
    (by rw [flipBitAt_length, h10])
    (header_decodes _ (by omega))
    hfit, reader_auth, if_pos (flipBitAt_ne _ _ (by rw [h10]; omega))]

theorem tag_tamper_detected_witness :
    12 ≤ samplePayload.front.length ∧ sampleBuffer.cap ≤ 65535 ∧
    samplePayload.Len + AuthSize ≤ sampleBuffer.cap ∧ 16 ≤ 40 ∧ 40 < 96 ∧
    ∃ res w' payload',
      (NewChunkWriter (Writer.sink []) (NewAuthenticator (ChunkKeyGenerator [1, 2, 3]))).Write
          samplePayload = some (res, w', payload') ∧
      ((NewChunkReader { data := flipBitAt w'.writer.st 40 ++ [], fail := Error.EOF }
          (NewAuthenticator (ChunkKeyGenerator [1, 2, 3]))).Read sampleBuffer).1
        = .error Error.ErrCorruptedPacket :=
  ⟨by decide, by decide, by decide, by decide, by decide,
    tag_tamper_detected (NewAuthenticator (ChunkKeyGenerator [1, 2, 3])) samplePayload
      sampleBuffer [] Error.EOF 40 (by decide) (by decide) (by decide) (by decide) (by decide)⟩

/-- What `Read` makes of a unit with one payload bit inverted: the length field and the
tag are as written, so `Read` recomputes the tag over the changed payload, and rejects the
chunk exactly when that tag differs from the one written for the original payload. -/
theorem payload_tamper_verdict {σ : Type} (a : Authenticator σ) (payload buffer : Buffer)
    (rest : List Byte) (fail : Error) (pos : Nat)
    (hcap : buffer.cap ≤ 65535)
    (hfit : payload.Len + AuthSize ≤ buffer.cap)
    (hlo : 96 ≤ pos) :
    ((NewChunkReader { data := flipBitAt (wireUnit a payload.Value) pos ++ rest, fail := fail }
        a).Read buffer).1 =
      if (a.Authenticate [] payload.Value).1
          ≠ (a.Authenticate [] (flipBitAt payload.Value (pos - 96))).1 then
        .error Error.ErrCorruptedPacket
      else
        .ok { front := buffer.front ++ (a.Authenticate [] payload.Value).1
              Value := flipBitAt payload.Value (pos - 96)
              spare := (buffer.Value ++ buffer.spare).drop (payload.Value.length + 10) } := by
  simp only [Buffer.Len, AuthSize] at hfit
  have h10 := Authenticate_nil_length a payload.Value
  have hflip : flipBitAt (wireUnit a payload.Value) pos
      = toByte ((payload.Value.length % 65536) >>> 8) :: toByte (payload.Value.length % 65536)
        :: ((a.Authenticate [] payload.Value).1 ++ flipBitAt payload.Value (pos - 96)) := by
    rw [wireUnit_cons]
    have h1 := flipBitAt_append_right
      [toByte ((payload.Value.length % 65536) >>> 8), toByte (payload.Value.length % 65536)]
      ((a.Authenticate [] payload.Value).1 ++ payload.Value) pos (by simp; omega)
    have h2 := flipBitAt_append_right (a.Authenticate [] payload.Value).1 payload.Value
      (pos - 16) (by rw [h10]; omega)
    rw [h10, show pos - 16 - 8 * 10 = pos - 96 by omega] at h2
    rw [show pos - 8 * [toByte ((payload.Value.length % 65536) >>> 8),
      toByte (payload.Value.length % 65536)].length = pos - 16 from rfl, h2] at h1
    exact h1
  rw [Read_chunk _ buffer
    (toByte ((payload.Value.length % 65536) >>> 8)) (toByte (payload.Value.length % 65536))
    (a.Authenticate [] payload.Value).1 (flipBitAt payload.Value (pos - 96)) rest
    (by rw [reader_data, hflip]; rfl)
    h10
    (by rw [flipBitAt_length]; exact header_decodes _ (by omega))
    (by rw [flipBitAt_length]; exact hfit), reader_auth, flipBitAt_length]
  split <;> rfl

/-- C8. Writer output: for a payload buffer of fewer than 65536 bytes (with the headroom
`Prepend` requires), `Write` makes one call of the underlying stream's write, handing it
exactly the two big-endian bytes of len(P), then the tag T, then P, where T is the first
10 bytes of the HMAC-SHA1 of the whole of P under the next key of the writer's key
generator; what that call returns, byte count and error, is what `Write` returns, and the
stream is left as that one call leaves it. -/
theorem Write_output {ω σ : Type} (this : ChunkWriter ω σ) (payload : Buffer)
    (hroom : 12 ≤ payload.front.length)
    (hlen : payload.Len < 65536) :
    ∃ T w' payload',
      T = (hmacSha1 this.auth.key.call.1 payload.Bytes).take 10 ∧ T.length = 10 ∧
      this.Write payload =
        some ((this.writer.write this.writer.st
                ([toByte (payload.Len / 256), toByte payload.Len] ++ T ++ payload.Bytes)).1,
              w', payload') ∧
      w'.writer.st = (this.writer.write this.writer.st
                ([toByte (payload.Len / 256), toByte payload.Len] ++ T ++ payload.Bytes)).2 ∧
      w'.writer.write = this.writer.write := by
  have hw := Write_eq this payload hroom
  have hu : wireUnit this.auth payload.Value
      = [toByte (payload.Len / 256), toByte payload.Len]
        ++ (hmacSha1 this.auth.key.call.1 payload.Bytes).take 10 ++ payload.Bytes := by
    simp only [Buffer.Len] at hlen
    simp only [wireUnit, Uint16ToBytes, Nat.mod_eq_of_lt hlen, Nat.shiftRight_eq_div_pow,
      Authenticate_fst, AuthSize, Buffer.Len, Buffer.Bytes, List.nil_append, List.append_assoc]
  rw [hu] at hw
  exact ⟨_, _, _, rfl, by simp [hmacSha1_length], hw, rfl, rfl⟩

theorem Write_output_witness :
    12 ≤ samplePayload.front.length ∧ samplePayload.Len < 65536 ∧
    ∃ T w' payload',
      T = (hmacSha1 (NewAuthenticator (ChunkKeyGenerator [1, 2, 3])).key.call.1
            samplePayload.Bytes).take 10 ∧ T.length = 10 ∧
      (NewChunkWriter (Writer.sink [7]) (NewAuthenticator (ChunkKeyGenerator [1, 2, 3]))).Write
          samplePayload =
        some (((Writer.sink [7]).write [7]
                ([toByte (samplePayload.Len / 256), toByte samplePayload.Len] ++ T
                  ++ samplePayload.Bytes)).1,
              w', payload') ∧
      w'.writer.st = ((Writer.sink [7]).write [7]
                ([toByte (samplePayload.Len / 256), toByte samplePayload.Len] ++ T
                  ++ samplePayload.Bytes)).2 ∧
      w'.writer.write = (Writer.sink [7]).write :=
  ⟨by decide, by decide,
    Write_output (NewChunkWriter (Writer.sink [7]) (NewAuthenticator (ChunkKeyGenerator [1, 2, 3])))
      samplePayload (by decide) (by decide)⟩

/-- C9 as stated fails: the unit `Write` emits for the empty payload starts with the bytes
00 00, which decode to the length 0; the encoding of 0 + 10 would be 00 0A. -/
theorem length_field_counts_payload_only :
    ∃ res w' payload',
      (NewChunkWriter (Writer.sink []) (NewAuthenticator (ChunkKeyGenerator []))).Write
          { front := List.replicate 16 0, Value := [], spare := [] }
        = some (res, w', payload') ∧
      w'.writer.st.take 2 = [0, 0] ∧
      w'.writer.st.take 2 ≠ Uint16ToBytes (0 + 10) ∧
      BytesToUint16 w'.writer.st ≠ 10 := by
  refine ⟨_, _, _, Write_sink _ [] _ (by decide), ?_, ?_, ?_⟩
  · rw [sink_st, List.nil_append, wireUnit_cons]
    rfl
  · rw [sink_st, List.nil_append, wireUnit_cons]
    decide
  · rw [sink_st, List.nil_append, wireUnit, BytesToUint16_Uint16ToBytes]
    decide

/-- C9, amended. Wire-format length field: the unit `Write` emits for a payload P (in a
buffer with the headroom `Prepend` requires) is len(P) + 12 bytes long, and its first two
bytes are the big-endian `uint16` encoding of len(P), the length of the payload alone, cut
to 16 bits; the reader adds the 10 bytes of the tag. A zero-length payload yields a 12-byte
unit whose length field is 0, and reading it back, into a buffer of capacity 10 or more,
by a reader in the writer's key state, yields a zero-length payload. -/
theorem length_field {σ : Type} (a : Authenticator σ) (payload : Buffer)
    (hroom : 12 ≤ payload.front.length) :
    ∃ res w' payload',
      (NewChunkWriter (Writer.sink []) a).Write payload = some (res, w', payload') ∧
      w'.writer.st.length = payload.Len + 12 ∧
      w'.writer.st.take 2 = [toByte (payload.Len % 65536 / 256), toByte (payload.Len % 65536)] ∧
      BytesToUint16 w'.writer.st = payload.Len % 65536 ∧
      (payload.Len = 0 →
        w'.writer.st.length = 12 ∧ BytesToUint16 w'.writer.st = 0 ∧
        ∀ (buffer : Buffer) (rest : List Byte) (fail : Error), 10 ≤ buffer.cap →
          ∃ out r',
            (NewChunkReader { data := w'.writer.st ++ rest, fail := fail } a).Read buffer
              = (.ok out, r') ∧
            out.Len = 0) := by
  refine ⟨_, _, _, Write_sink a [] payload hroom, ?_, ?_, ?_, ?_⟩
  · rw [sink_st, List.nil_append, wireUnit_length, Buffer.Len]
  · rw [sink_st, List.nil_append, wireUnit_cons, Buffer.Len, Nat.shiftRight_eq_div_pow]
    rfl
  · rw [sink_st, List.nil_append, wireUnit, BytesToUint16_Uint16ToBytes, Buffer.Len,
      Nat.mod_mod]
  · intro h0
    rw [Buffer.Len] at h0
    refine ⟨?_, ?_, ?_⟩
    · rw [sink_st, List.nil_append, wireUnit_length, h0]
    · rw [sink_st, List.nil_append, wireUnit, BytesToUint16_Uint16ToBytes, h0]
    · intro buffer rest fail hcap
      exact ⟨_, _, Read_written a _ payload buffer rest fail (by omega) (by omega),
        by rw [Buffer.Len, mk_Value, h0]⟩

theorem length_field_witness :
    12 ≤ samplePayload.front.length ∧
    ∃ res w' payload',
      (NewChunkWriter (Writer.sink []) (NewAuthenticator (ChunkKeyGenerator [1, 2, 3]))).Write
          samplePayload = some (res, w', payload') ∧
      w'.writer.st.length = samplePayload.Len + 12 ∧
      w'.writer.st.take 2
        = [toByte (samplePayload.Len % 65536 / 256), toByte (samplePayload.Len % 65536)] ∧
      BytesToUint16 w'.writer.st = samplePayload.Len % 65536 ∧
      (samplePayload.Len = 0 →
        w'.writer.st.length = 12 ∧ BytesToUint16 w'.writer.st = 0 ∧
        ∀ (buffer : Buffer) (rest : List Byte) (fail : Error), 10 ≤ buffer.cap →
          ∃ out r',
            (NewChunkReader { data := w'.writer.st ++ rest, fail := fail }
                (NewAuthenticator (ChunkKeyGenerator [1, 2, 3]))).Read buffer
              = (.ok out, r') ∧
            out.Len = 0) :=
  ⟨by decide, length_field (NewAuthenticator (ChunkKeyGenerator [1, 2, 3])) samplePayload
    (by decide)⟩

/-- A unit written for a payload longer than the reader's capacity less the tag: `Write`
accepts it and `Read` panics on it. -/
theorem Read_panic_of_long_payload {σ : Type} (a : Authenticator σ) (payload buffer : Buffer)
    (rest : List Byte) (fail : Error)
    (hroom : 12 ≤ payload.front.length)
    (hlen : payload.Value.length + 10 < 65536)
    (hover : buffer.cap < payload.Value.length + 10) :
    ∃ res w' payload',
      (NewChunkWriter (Writer.sink []) a).Write payload = some (res, w', payload') ∧
      ((NewChunkReader { data := w'.writer.st ++ rest, fail := fail } a).Read buffer).1
        = Outcome.panic := by
  refine ⟨_, _, _, Write_sink a [] payload hroom, ?_⟩
  rw [sink_st, List.nil_append]
  apply Read_panic_of_cap_lt _ _ (toByte ((payload.Value.length % 65536) >>> 8))
    (toByte (payload.Value.length % 65536)) ((a.Authenticate [] payload.Value).1
      ++ payload.Value ++ rest)
  · rw [reader_data, wireUnit_cons]
    rfl
  · rw [BytesToUint16_pair, AuthSize, header_decodes _ hlen]
    exact hover

/-- C10 as stated fails: a payload of 65520 bytes, which fills a buffer as large as the
reader's, is accepted by `Write`; the unit declares rawLen = 65520, so the reader asks
for 65530 bytes of a buffer of capacity 65520 and `Read` ends in a run-time panic instead
of returning the payload. -/
theorem full_buffer_not_decodable :
    ∃ res w' payload',
      (NewChunkWriter (Writer.sink []) (NewAuthenticator (ChunkKeyGenerator []))).Write
          { front := List.replicate 16 0, Value := List.replicate 65520 0, spare := [] }
        = some (res, w', payload') ∧
      ((NewChunkReader { data := w'.writer.st ++ [], fail := Error.EOF }
          (NewAuthenticator (ChunkKeyGenerator []))).Read
          { front := List.replicate 16 0, Value := List.replicate 65520 0, spare := [] }).1
        = Outcome.panic :=
  Read_panic_of_long_payload _ _ _ [] Error.EOF
    (by rw [mk_front, List.length_replicate]; decide)
    (by rw [mk_Value, List.length_replicate]; decide)
    (by rw [mk_cap, mk_Value, List.length_replicate, List.length_nil]; decide)

/-- C10, amended. Writer output is decodable within the reader's capacity: for every
payload P that `Write` accepts and whose length plus the 10-byte tag is within the
capacity of the reader's buffer (the buffer `alloc.NewLargeBuffer` hands out, of capacity
below 65536), the unit `Write` emits is accepted by a `ChunkReader` in the same key state
as the writer, whose `Read` returns P without error. -/
theorem decodable_within_capacity {σ : Type} (a : Authenticator σ) (payload buffer : Buffer)
    (rest : List Byte) (fail : Error)
    (hroom : 12 ≤ payload.front.length)
    (hcap : buffer.cap ≤ 65535)
    (hfit : payload.Len + AuthSize ≤ buffer.cap) :
    ∃ res w' payload' out r',
      (NewChunkWriter (Writer.sink []) a).Write payload = some (res, w', payload') ∧
      (NewChunkReader { data := w'.writer.st ++ rest, fail := fail } a).Read buffer
        = (.ok out, r') ∧
      out.Bytes = payload.Bytes := by
  simp only [Buffer.Len, AuthSize] at hfit
  exact ⟨_, _, _, _, _, Write_sink a [] payload hroom,
    Read_written a _ payload buffer rest fail (by omega) hfit, rfl⟩

theorem decodable_within_capacity_witness :
    12 ≤ samplePayload.front.length ∧ sampleBuffer.cap ≤ 65535 ∧
    samplePayload.Len + AuthSize ≤ sampleBuffer.cap ∧
    ∃ res w' payload' out r',
      (NewChunkWriter (Writer.sink []) (NewAuthenticator (HeaderKeyGenerator [9, 9] [1, 2, 3]))).Write
          samplePayload = some (res, w', payload') ∧
      (NewChunkReader { data := w'.writer.st ++ [4, 5], fail := Error.stream 1 }
          (NewAuthenticator (HeaderKeyGenerator [9, 9] [1, 2, 3]))).Read sampleBuffer
        = (.ok out, r') ∧
      out.Bytes = samplePayload.Bytes :=
  ⟨by decide, by decide, by decide,
    decodable_within_capacity (NewAuthenticator (HeaderKeyGenerator [9, 9] [1, 2, 3]))
      samplePayload sampleBuffer [4, 5] (Error.stream 1) (by decide) (by decide) (by decide)⟩

/-- C11. Authenticator output: for every accumulator `auth` and every payload `data`, the
empty one included, `Authenticate` returns `auth` followed by exactly the first 10 bytes of
the HMAC-SHA1 of `data` under the key that one invocation of the key generator produces.
The result is 10 bytes longer than `auth`, it is not `auth` followed by the full 20-byte
MAC, and the key generator is left as one invocation leaves it. -/
theorem Authenticate_output {σ : Type} (this : Authenticator σ) (auth data : List Byte) :
    (this.Authenticate auth data).1 = auth ++ (hmacSha1 this.key.call.1 data).take 10 ∧
    ((hmacSha1 this.key.call.1 data).take 10).length = 10 ∧
    (this.Authenticate auth data).1.length = auth.length + 10 ∧
    (this.Authenticate auth data).1 ≠ auth ++ hmacSha1 this.key.call.1 data ∧
    (this.Authenticate auth data).2.key = this.key.after 1 := by
  have h20 := hmacSha1_length this.key.call.1 data
  have hl : (this.Authenticate auth data).1.length = auth.length + 10 := by
    rw [Authenticate_fst, List.length_append, List.length_take, h20, AuthSize]
    rfl
  refine ⟨rfl, by rw [List.length_take, h20]; rfl, hl, ?_, rfl⟩
  intro h
  have h2 := congrArg List.length h
  rw [hl, List.length_append, h20] at h2
  omega

theorem be32_eq (n : Nat) :
    be32 n = [toByte (n / 16777216), toByte (n / 65536), toByte (n / 256), toByte n] := by
  simp only [be32, Nat.shiftRight_eq_div_pow]

theorem beWord_be32 (n : Nat) : beWord (be32 n) = n % 4294967296 := by
  simp only [be32, beWord, List.foldl_cons, List.foldl_nil, toByte_val,
    Nat.shiftRight_eq_div_pow]
  omega

theorem ChunkKeyGenerator_key (iv : List Byte) (n : Nat) :
    ((ChunkKeyGenerator iv).after n).call.1 = iv ++ be32 n := by
  rw [ChunkKeyGenerator_after]
  rfl

/-- C12. Chunk key derivation: for every IV and every n below 2^32, the (n+1)-th invocation
of the generator `ChunkKeyGenerator iv` returns `iv` followed by the four big-endian bytes
of n, a key of length len(iv) + 4; the counter starts at 0, stands at n before that
invocation and at n + 1 after it. -/
theorem chunk_key_derivation (iv : List Byte) (n : Nat) (hn : n < 4294967296) :
    ((ChunkKeyGenerator iv).after n).call.1
      = iv ++ [toByte (n / 16777216), toByte (n / 65536), toByte (n / 256), toByte n] ∧
    beWord (((ChunkKeyGenerator iv).after n).call.1.drop iv.length) = n ∧
    ((ChunkKeyGenerator iv).after n).call.1.length = iv.length + 4 ∧
    (ChunkKeyGenerator iv).env = 0 ∧
    ((ChunkKeyGenerator iv).after n).env = n ∧
    ((ChunkKeyGenerator iv).after n).call.2.env = n + 1 := by
  refine ⟨by rw [ChunkKeyGenerator_key, be32_eq], ?_, ?_, rfl,
    ChunkKeyGenerator_after_env iv n, ?_⟩
  · rw [ChunkKeyGenerator_key, List.drop_left, beWord_be32, Nat.mod_eq_of_lt hn]
  · rw [ChunkKeyGenerator_key, List.length_append, be32_length]
  · rw [call_after, ChunkKeyGenerator_after_env]

theorem chunk_key_derivation_witness :
    (258 : Nat) < 4294967296 ∧
    (((ChunkKeyGenerator [1, 2, 3]).after 258).call.1
      = [1, 2, 3] ++ [toByte (258 / 16777216), toByte (258 / 65536), toByte (258 / 256),
          toByte 258] ∧
    beWord (((ChunkKeyGenerator [1, 2, 3]).after 258).call.1.drop
      ([1, 2, 3] : List Byte).length) = 258 ∧
    ((ChunkKeyGenerator [1, 2, 3]).after 258).call.1.length
      = ([1, 2, 3] : List Byte).length + 4 ∧
    (ChunkKeyGenerator [1, 2, 3]).env = 0 ∧
    ((ChunkKeyGenerator [1, 2, 3]).after 258).env = 258 ∧
    ((ChunkKeyGenerator [1, 2, 3]).after 258).call.2.env = 258 + 1) :=
  ⟨by decide, chunk_key_derivation [1, 2, 3] 258 (by decide)⟩

theorem HeaderKeyGenerator_after (key iv : List Byte) (n : Nat) :
    (HeaderKeyGenerator key iv).after n = HeaderKeyGenerator key iv := by
  induction n with
  | zero => rfl
  | succ k ih => simp only [KeyGenerator.after, ih]; rfl

/-- C13. Header key derivation: for every shared secret `key` and IV, every invocation of
the generator `HeaderKeyGenerator key iv`, however many invocations came before it,
returns the same key, `iv` followed by `key`, and leaves the generator as it was. -/
theorem header_key_derivation (key iv : List Byte) (n : Nat) :
    ((HeaderKeyGenerator key iv).after n).call.1 = iv ++ key ∧
    ((HeaderKeyGenerator key iv).after n).call.1 = (HeaderKeyGenerator key iv).call.1 ∧
    ((HeaderKeyGenerator key iv).after n).call.2 = HeaderKeyGenerator key iv := by
  rw [HeaderKeyGenerator_after]
  exact ⟨rfl, rfl, rfl⟩

/-- C14 as stated fails: the key carries the four low-order bytes of the counter only, so
the first invocation and the one 2^32 invocations later return the same key. -/
theorem chunk_key_repeats :
    (0 : Nat) ≠ 4294967296 ∧
    ((ChunkKeyGenerator [1, 2, 3]).after 0).call.1
      = ((ChunkKeyGenerator [1, 2, 3]).after 4294967296).call.1 := by
  refine ⟨by decide, ?_⟩
  rw [ChunkKeyGenerator_key, ChunkKeyGenerator_key]
  rfl

/-- C14, amended. Chunk keys do not repeat within 2^32 invocations: for every IV and every
two invocation indices i and j of one generator `ChunkKeyGenerator iv` that differ modulo
2^32, in particular for different i and j below 2^32, the key returned by invocation i
differs from the key returned by invocation j. -/
theorem chunk_keys_distinct (iv : List Byte) (i j : Nat)
    (hij : i % 4294967296 ≠ j % 4294967296) :
    ((ChunkKeyGenerator iv).after i).call.1 ≠ ((ChunkKeyGenerator iv).after j).call.1 := by
  rw [ChunkKeyGenerator_key, ChunkKeyGenerator_key]
  intro h
  have h2 := congrArg beWord (List.append_cancel_left h)
  rw [beWord_be32, beWord_be32] at h2
  exact hij h2

theorem chunk_keys_distinct_witness :
    (0 : Nat) % 4294967296 ≠ 1 % 4294967296 ∧
    ((ChunkKeyGenerator [1, 2, 3]).after 0).call.1
      ≠ ((ChunkKeyGenerator [1, 2, 3]).after 1).call.1 :=
  ⟨by decide, chunk_keys_distinct [1, 2, 3] 0 1 (by decide)⟩

theorem ReadFull_short (r : Reader) (n : Nat) (h : r.data.length < n) :
    ReadFull r n =
      (.error (if r.data ≠ [] ∧ r.fail = Error.EOF then Error.ErrUnexpectedEOF else r.fail),
        { r with data := [] }) := by
  unfold ReadFull
  rw [if_neg (by omega)]
  split <;> rfl

/-- The stream gives out before the two length bytes have come. -/
theorem Read_short_header {σ : Type} (this : ChunkReader σ) (buffer : Buffer)
    (h2 : 2 ≤ buffer.cap) (hshort : this.reader.data.length < 2) :
    this.Read buffer =
      (.error (if this.reader.data ≠ [] ∧ this.reader.fail = Error.EOF
          then Error.ErrUnexpectedEOF else this.reader.fail),
        { this with reader := { this.reader with data := [] } }) := by
  have hup0 : buffer.upTo 2 = some ((buffer.Value ++ buffer.spare).take 2) := by
    simp [Buffer.upTo, h2]
  unfold ChunkReader.Read
  simp only [hup0, ReadFull_short this.reader 2 hshort]

/-- The stream gives out after the two length bytes and before the follow-on bytes that
`Read` asks for have come. -/
theorem Read_short_body {σ : Type} (this : ChunkReader σ) (buffer : Buffer) (b0 b1 : Byte)
    (follow : List Byte)
    (hdata : this.reader.data = b0 :: b1 :: follow)
    (hfit : (BytesToUint16 [b0, b1] + AuthSize) % 65536 ≤ buffer.cap)
    (h2 : 2 ≤ buffer.cap)
    (hshort : follow.length < (BytesToUint16 [b0, b1] + AuthSize) % 65536) :
    this.Read buffer =
      (.error (if follow ≠ [] ∧ this.reader.fail = Error.EOF
          then Error.ErrUnexpectedEOF else this.reader.fail),
        { this with reader := { this.reader with data := [] } }) := by
  obtain ⟨⟨data, fail⟩, auth⟩ := this
  simp only at hdata
  subst hdata
  have hup0 : buffer.upTo 2 = some ((buffer.Value ++ buffer.spare).take 2) := by
    simp [Buffer.upTo, h2]
  have hc1 : (buffer.fill [b0, b1]).cap = buffer.cap :=
    Buffer.fill_cap _ _ (by simpa using h2)
  have hupL : (buffer.fill [b0, b1]).upTo ((BytesToUint16 [b0, b1] + AuthSize) % 65536)
      = some (((buffer.fill [b0, b1]).Value ++ (buffer.fill [b0, b1]).spare).take
          ((BytesToUint16 [b0, b1] + AuthSize) % 65536)) := by
    simp only [Buffer.upTo, hc1]
    rw [if_pos hfit]
  have hrf := ReadFull_short { data := follow, fail := fail }
    ((BytesToUint16 [b0, b1] + AuthSize) % 65536) hshort
  unfold ChunkReader.Read
  simp only [hup0, ReadFull_two, upTo_fill_two buffer b0 b1 h2, Option.getD_some, hupL, hrf]

/-- C15 as stated fails: a stream that delivers one byte and then ends reports `io.EOF`;
`Read` returns `io.ErrUnexpectedEOF`, the error `io.ReadFull` makes of it, not the
stream's error unchanged. -/
theorem short_read_error_is_translated :
    ((NewChunkReader { data := [0], fail := Error.EOF }
        (NewAuthenticator (ChunkKeyGenerator [1, 2, 3]))).Read sampleBuffer).1
      = Outcome.error Error.ErrUnexpectedEOF ∧
    Error.ErrUnexpectedEOF ≠ Error.EOF := by
  refine ⟨?_, by decide⟩
  rw [Read_short_header _ _ (by decide) (by decide)]
  rfl

/-- C15, amended. Transport errors are propagated, not reported as corruption: when the
stream ends or fails before the 2 length bytes have come, or, for a declared length that
fits the buffer, before the rawLen + 10 follow-on bytes have come, `Read` returns no
payload and returns the error `io.ReadFull` reports: the stream's own error unchanged,
except that `io.EOF` after part of the requested bytes is reported as
`io.ErrUnexpectedEOF`. For a stream whose own error is not the corrupted-packet error
this is never the corrupted-packet error. The buffer is the one `alloc.NewLargeBuffer`
hands out, of capacity from 2 to 65535. -/
theorem transport_errors_propagated {σ : Type} (this : ChunkReader σ) (buffer : Buffer)
    (h2 : 2 ≤ buffer.cap) (hcap : buffer.cap ≤ 65535) :
    (this.reader.data.length < 2 →
      (this.Read buffer).1 =
        .error (if this.reader.data ≠ [] ∧ this.reader.fail = Error.EOF
          then Error.ErrUnexpectedEOF else this.reader.fail) ∧
      (this.reader.fail ≠ Error.ErrCorruptedPacket →
        (this.Read buffer).1 ≠ .error Error.ErrCorruptedPacket)) ∧
    (∀ (b0 b1 : Byte) (follow : List Byte),
      this.reader.data = b0 :: b1 :: follow →
      BytesToUint16 [b0, b1] + AuthSize ≤ buffer.cap →
      follow.length < BytesToUint16 [b0, b1] + AuthSize →
      (this.Read buffer).1 =
        .error (if follow ≠ [] ∧ this.reader.fail = Error.EOF
          then Error.ErrUnexpectedEOF else this.reader.fail) ∧
      (this.reader.fail ≠ Error.ErrCorruptedPacket →
        (this.Read buffer).1 ≠ .error Error.ErrCorruptedPacket)) := by
  have key : ∀ (c : Prop) [Decidable c], this.reader.fail ≠ Error.ErrCorruptedPacket →
      (Outcome.error (if c ∧ this.reader.fail = Error.EOF
          then Error.ErrUnexpectedEOF else this.reader.fail) : Outcome Buffer)
        ≠ .error Error.ErrCorruptedPacket := by
    intro c _ hne h
    have h' := Outcome.error.inj h
    split at h'
    · cases h'
    · exact hne h'
  constructor
  · intro hshort
    rw [Read_short_header this buffer h2 hshort]
    exact ⟨rfl, key _⟩
  · intro b0 b1 follow hdata hfit hshort
    have hL : (BytesToUint16 [b0, b1] + AuthSize) % 65536 = BytesToUint16 [b0, b1] + AuthSize :=
      Nat.mod_eq_of_lt (by omega)
    rw [Read_short_body this buffer b0 b1 follow hdata (by rw [hL]; exact hfit) h2
      (by rw [hL]; exact hshort)]
    exact ⟨rfl, key _⟩

theorem transport_errors_propagated_witness :
    2 ≤ sampleBuffer.cap ∧ sampleBuffer.cap ≤ 65535 ∧
    (((NewChunkReader { data := [0, 3, 1, 2], fail := Error.stream 7 }
        (NewAuthenticator (ChunkKeyGenerator [1, 2, 3]))).reader.data.length < 2 →
      ((NewChunkReader { data := [0, 3, 1, 2], fail := Error.stream 7 }
        (NewAuthenticator (ChunkKeyGenerator [1, 2, 3]))).Read sampleBuffer).1 =
        .error (if (NewChunkReader { data := [0, 3, 1, 2], fail := Error.stream 7 }
            (NewAuthenticator (ChunkKeyGenerator [1, 2, 3]))).reader.data ≠ [] ∧
            (NewChunkReader { data := [0, 3, 1, 2], fail := Error.stream 7 }
              (NewAuthenticator (ChunkKeyGenerator [1, 2, 3]))).reader.fail = Error.EOF
          then Error.ErrUnexpectedEOF
          else (NewChunkReader { data := [0, 3, 1, 2], fail := Error.stream 7 }
            (NewAuthenticator (ChunkKeyGenerator [1, 2, 3]))).reader.fail) ∧
      ((NewChunkReader { data := [0, 3, 1, 2], fail := Error.stream 7 }
          (NewAuthenticator (ChunkKeyGenerator [1, 2, 3]))).reader.fail
            ≠ Error.ErrCorruptedPacket →
        ((NewChunkReader { data := [0, 3, 1, 2], fail := Error.stream 7 }
          (NewAuthenticator (ChunkKeyGenerator [1, 2, 3]))).Read sampleBuffer).1
            ≠ .error Error.ErrCorruptedPacket)) ∧
    (∀ (b0 b1 : Byte) (follow : List Byte),
      (NewChunkReader { data := [0, 3, 1, 2], fail := Error.stream 7 }
        (NewAuthenticator (ChunkKeyGenerator [1, 2, 3]))).reader.data = b0 :: b1 :: follow →
      BytesToUint16 [b0, b1] + AuthSize ≤ sampleBuffer.cap →
      follow.length < BytesToUint16 [b0, b1] + AuthSize →
      ((NewChunkReader { data := [0, 3, 1, 2], fail := Error.stream 7 }
        (NewAuthenticator (ChunkKeyGenerator [1, 2, 3]))).Read sampleBuffer).1 =
        .error (if follow ≠ [] ∧
            (NewChunkReader { data := [0, 3, 1, 2], fail := Error.stream 7 }
              (NewAuthenticator (ChunkKeyGenerator [1, 2, 3]))).reader.fail = Error.EOF
          then Error.ErrUnexpectedEOF
          else (NewChunkReader { data := [0, 3, 1, 2], fail := Error.stream 7 }
            (NewAuthenticator (ChunkKeyGenerator [1, 2, 3]))).reader.fail) ∧
      ((NewChunkReader { data := [0, 3, 1, 2], fail := Error.stream 7 }
          (NewAuthenticator (ChunkKeyGenerator [1, 2, 3]))).reader.fail
            ≠ Error.ErrCorruptedPacket →
        ((NewChunkReader { data := [0, 3, 1, 2], fail := Error.stream 7 }
          (NewAuthenticator (ChunkKeyGenerator [1, 2, 3]))).Read sampleBuffer).1
            ≠ .error Error.ErrCorruptedPacket))) :=
  ⟨by decide, by decide,
    transport_errors_propagated (NewChunkReader { data := [0, 3, 1, 2], fail := Error.stream 7 }
      (NewAuthenticator (ChunkKeyGenerator [1, 2, 3]))) sampleBuffer (by decide) (by decide)⟩

theorem ReadFull_error (r r' : Reader) (n : Nat) (err : Error)
    (h : ReadFull r n = (.error err, r')) : err = r.fail ∨ err = Error.ErrUnexpectedEOF := by
  unfold ReadFull at h
  split at h
  · cases h
  · split at h
    · cases h; exact Or.inr rfl
    · cases h; exact Or.inl rfl

theorem ReadFull_fail (r : Reader) (n : Nat) : (ReadFull r n).2.fail = r.fail := by
  unfold ReadFull
  split
  · rfl
  · split <;> rfl

/-- Where a `Read` call can leave the authenticator: untouched, when the call ends in a
panic or in an error of `io.ReadFull`; as one `Authenticate` call leaves it, when the call
got as far as the tag check. -/
theorem Read_auth {σ : Type} (this : ChunkReader σ) (buffer : Buffer) :
    ((this.Read buffer).2.auth = this.auth ∧
      ((this.Read buffer).1 = .panic ∨ (this.Read buffer).1 = .error this.reader.fail ∨
        (this.Read buffer).1 = .error Error.ErrUnexpectedEOF)) ∨
    ((this.Read buffer).2.auth.key = this.auth.key.call.2 ∧
      ((∃ out, (this.Read buffer).1 = .ok out) ∨
        (this.Read buffer).1 = .error Error.ErrCorruptedPacket ∨
        (this.Read buffer).1 = .panic)) := by
  unfold ChunkReader.Read
  split
  · exact Or.inl ⟨rfl, Or.inl rfl⟩
  split
  · rename_i err reader h
    rcases ReadFull_error _ _ _ _ h with rfl | rfl
    · exact Or.inl ⟨rfl, Or.inr (Or.inl rfl)⟩
    · exact Or.inl ⟨rfl, Or.inr (Or.inr rfl)⟩
  rename_i head reader h1
  have hf1 : reader.fail = this.reader.fail := by
    have := ReadFull_fail this.reader 2
    rw [h1] at this
    exact this
  simp only []
  split
  · exact Or.inl ⟨rfl, Or.inl rfl⟩
  split
  · rename_i err reader2 h
    rcases ReadFull_error _ _ _ _ h with rfl | rfl
    · rw [hf1]; exact Or.inl ⟨rfl, Or.inr (Or.inl rfl)⟩
    · exact Or.inl ⟨rfl, Or.inr (Or.inr rfl)⟩
  split
  · exact Or.inl ⟨rfl, Or.inl rfl⟩
  split
  · exact Or.inl ⟨rfl, Or.inl rfl⟩
  split
  · exact Or.inl ⟨rfl, Or.inl rfl⟩
  split
  · exact Or.inr ⟨rfl, Or.inr (Or.inl rfl)⟩
  split
  · exact Or.inr ⟨rfl, Or.inr (Or.inr rfl)⟩
  · exact Or.inr ⟨rfl, Or.inl ⟨_, rfl⟩⟩

/-- The stream holds the two length bytes and, within the capacity of the buffer, all of
the follow-on bytes they declare: `Read` gets as far as the tag check. It leaves the
authenticator as one `Authenticate` call leaves it and the stream behind the chunk, and
returns the corrupted-packet error or the payload as the tag check goes. -/
theorem Read_reaches_check {σ : Type} (this : ChunkReader σ) (buffer : Buffer) (b0 b1 : Byte)
    (follow : List Byte)
    (hdata : this.reader.data = b0 :: b1 :: follow)
    (hcap : buffer.cap ≤ 65535)
    (hfit : BytesToUint16 [b0, b1] + AuthSize ≤ buffer.cap)
    (hfollow : BytesToUint16 [b0, b1] + AuthSize ≤ follow.length) :
    (this.Read buffer).2.auth.key = this.auth.key.call.2 ∧
    (this.Read buffer).2.reader.data = follow.drop (BytesToUint16 [b0, b1] + AuthSize) ∧
    (follow.take AuthSize ≠ (this.auth.Authenticate []
        ((follow.drop AuthSize).take (BytesToUint16 [b0, b1]))).1 →
      (this.Read buffer).1 = .error Error.ErrCorruptedPacket) ∧
    (follow.take AuthSize = (this.auth.Authenticate []
        ((follow.drop AuthSize).take (BytesToUint16 [b0, b1]))).1 →
      ∃ out, (this.Read buffer).1 = .ok out) := by
  simp only [BytesToUint16_pair, AuthSize] at hfit hfollow ⊢
  set rawLen := b0.val * 256 + b1.val with hraw
  have hsplit : follow = follow.take 10 ++ (follow.drop 10).take rawLen
      ++ (follow.drop 10).drop rawLen := by
    rw [List.append_assoc, List.take_append_drop, List.take_append_drop]
  have hlp : ((follow.drop 10).take rawLen).length = rawLen := by
    rw [List.length_take, List.length_drop]; omega
  have hrest : (follow.drop 10).drop rawLen = follow.drop (rawLen + 10) := by
    rw [List.drop_drop, Nat.add_comm]
  have h := Read_chunk this buffer b0 b1 (follow.take 10) ((follow.drop 10).take rawLen)
    ((follow.drop 10).drop rawLen) (by rw [hdata, ← hsplit])
    (by rw [List.length_take]; omega) (by rw [hlp, ← hraw]; omega) (by rw [hlp]; exact hfit)
  by_cases heq : follow.take 10
      = (this.auth.Authenticate [] ((follow.drop 10).take rawLen)).1
  · rw [if_neg (by simpa using heq)] at h
    rw [h]
    exact ⟨rfl, hrest, fun hne => absurd heq hne, fun _ => ⟨_, rfl⟩⟩
  · rw [if_pos heq] at h
    rw [h]
    exact ⟨rfl, hrest, fun _ => rfl, fun h' => absurd h' heq⟩

/-- C18. Counter advance per `Read`, for a reader whose chunk key generator has been
invoked n times. When the stream holds the two length bytes and, within the capacity of
the buffer, the rawLen + 10 follow-on bytes they declare, `Read` gets as far as the tag
check: whether the tag matches (payload returned) or not (corrupted-packet error), the
key generator is left as exactly one invocation leaves it and the chunk counter is n + 1.
When the stream gives out before the two length bytes, or before the follow-on bytes,
have come, `Read` returns the error of `io.ReadFull` and the key generator is as before,
the chunk counter still n. The buffer is the one `alloc.NewLargeBuffer` hands out, of
capacity from 2 to 65535. -/
theorem counter_advance (iv : List Byte) (n : Nat) (reader : Reader) (buffer : Buffer)
    (h2 : 2 ≤ buffer.cap) (hcap : buffer.cap ≤ 65535) :
    (∀ (b0 b1 : Byte) (follow : List Byte),
      reader.data = b0 :: b1 :: follow →
      BytesToUint16 [b0, b1] + AuthSize ≤ buffer.cap →
      BytesToUint16 [b0, b1] + AuthSize ≤ follow.length →
      ((NewChunkReader reader (NewAuthenticator ((ChunkKeyGenerator iv).after n))).Read
          buffer).2.auth.key = (ChunkKeyGenerator iv).after (n + 1) ∧
      ((NewChunkReader reader (NewAuthenticator ((ChunkKeyGenerator iv).after n))).Read
          buffer).2.auth.key.env = n + 1 ∧
      (follow.take AuthSize ≠ ((NewAuthenticator ((ChunkKeyGenerator iv).after n)).Authenticate []
          ((follow.drop AuthSize).take (BytesToUint16 [b0, b1]))).1 →
        ((NewChunkReader reader (NewAuthenticator ((ChunkKeyGenerator iv).after n))).Read
          buffer).1 = .error Error.ErrCorruptedPacket) ∧
      (follow.take AuthSize = ((NewAuthenticator ((ChunkKeyGenerator iv).after n)).Authenticate []
          ((follow.drop AuthSize).take (BytesToUint16 [b0, b1]))).1 →
        ∃ out, ((NewChunkReader reader (NewAuthenticator ((ChunkKeyGenerator iv).after n))).Read
          buffer).1 = .ok out)) ∧
    (reader.data.length < 2 →
      ((NewChunkReader reader (NewAuthenticator ((ChunkKeyGenerator iv).after n))).Read
          buffer).1 = .error (if reader.data ≠ [] ∧ reader.fail = Error.EOF
            then Error.ErrUnexpectedEOF else reader.fail) ∧
      ((NewChunkReader reader (NewAuthenticator ((ChunkKeyGenerator iv).after n))).Read
          buffer).2.auth.key = (ChunkKeyGenerator iv).after n ∧
      ((NewChunkReader reader (NewAuthenticator ((ChunkKeyGenerator iv).after n))).Read
          buffer).2.auth.key.env = n) ∧
    (∀ (b0 b1 : Byte) (follow : List Byte),
      reader.data = b0 :: b1 :: follow →
      BytesToUint16 [b0, b1] + AuthSize ≤ buffer.cap →
      follow.length < BytesToUint16 [b0, b1] + AuthSize →
      ((NewChunkReader reader (NewAuthenticator ((ChunkKeyGenerator iv).after n))).Read
          buffer).1 = .error (if follow ≠ [] ∧ reader.fail = Error.EOF
            then Error.ErrUnexpectedEOF else reader.fail) ∧
      ((NewChunkReader reader (NewAuthenticator ((ChunkKeyGenerator iv).after n))).Read
          buffer).2.auth.key = (ChunkKeyGenerator iv).after n ∧
      ((NewChunkReader reader (NewAuthenticator ((ChunkKeyGenerator iv).after n))).Read
          buffer).2.auth.key.env = n) := by
  refine ⟨?_, ?_, ?_⟩
  · intro b0 b1 follow hdata hfit hfollow
    obtain ⟨hk, _, hbad, hgood⟩ := Read_reaches_check
      (NewChunkReader reader (NewAuthenticator ((ChunkKeyGenerator iv).after n))) buffer b0 b1
      follow hdata hcap hfit hfollow
    rw [reader_auth] at hk hbad hgood
    refine ⟨hk, ?_, hbad, hgood⟩
    rw [hk]
    exact ChunkKeyGenerator_after_env iv (n + 1)
  · intro hshort
    rw [Read_short_header (NewChunkReader reader (NewAuthenticator ((ChunkKeyGenerator iv).after n)))
      buffer h2 hshort]
    exact ⟨rfl, rfl, ChunkKeyGenerator_after_env iv n⟩
  · intro b0 b1 follow hdata hfit hshort
    have hL : (BytesToUint16 [b0, b1] + AuthSize) % 65536 = BytesToUint16 [b0, b1] + AuthSize :=
      Nat.mod_eq_of_lt (by omega)
    rw [Read_short_body (NewChunkReader reader (NewAuthenticator ((ChunkKeyGenerator iv).after n)))
      buffer b0 b1 follow hdata (by rw [hL]; exact hfit) h2 (by rw [hL]; exact hshort)]
    exact ⟨rfl, rfl, ChunkKeyGenerator_after_env iv n⟩

theorem corrupted_sample_tag :
    (List.replicate 11 (0 : Byte)).take AuthSize
      ≠ ((NewAuthenticator ((ChunkKeyGenerator [1, 2, 3]).after 5)).Authenticate []
          (((List.replicate 11 (0 : Byte)).drop AuthSize).take (BytesToUint16 [0, 1]))).1 := by
  decide!

theorem counter_advance_witness :
    2 ≤ sampleBuffer.cap ∧ sampleBuffer.cap ≤ 65535 ∧
    (((NewChunkReader (Reader.mk (0 :: 1 :: List.replicate 11 0) Error.EOF)
        (NewAuthenticator ((ChunkKeyGenerator [1, 2, 3]).after 5))).Read sampleBuffer).1
      = .error Error.ErrCorruptedPacket ∧
    ((NewChunkReader (Reader.mk (0 :: 1 :: List.replicate 11 0) Error.EOF)
        (NewAuthenticator ((ChunkKeyGenerator [1, 2, 3]).after 5))).Read sampleBuffer).2.auth.key
      = (ChunkKeyGenerator [1, 2, 3]).after (5 + 1) ∧
    ((NewChunkReader (Reader.mk (0 :: 1 :: List.replicate 11 0) Error.EOF)
        (NewAuthenticator ((ChunkKeyGenerator [1, 2, 3]).after 5))).Read
          sampleBuffer).2.auth.key.env = 5 + 1) ∧
    (((NewChunkReader (Reader.mk [0, 3, 1, 2] Error.EOF)
        (NewAuthenticator ((ChunkKeyGenerator [1, 2, 3]).after 5))).Read sampleBuffer).1
      = .error Error.ErrUnexpectedEOF ∧
    ((NewChunkReader (Reader.mk [0, 3, 1, 2] Error.EOF)
        (NewAuthenticator ((ChunkKeyGenerator [1, 2, 3]).after 5))).Read sampleBuffer).2.auth.key
      = (ChunkKeyGenerator [1, 2, 3]).after 5 ∧
    ((NewChunkReader (Reader.mk [0, 3, 1, 2] Error.EOF)
        (NewAuthenticator ((ChunkKeyGenerator [1, 2, 3]).after 5))).Read
          sampleBuffer).2.auth.key.env = 5) :=
  have hc := (counter_advance [1, 2, 3] 5 (Reader.mk (0 :: 1 :: List.replicate 11 0) Error.EOF)
    sampleBuffer (by decide) (by decide)).1 0 1 (List.replicate 11 0) rfl (by decide) (by decide)
  have hs := (counter_advance [1, 2, 3] 5 (Reader.mk [0, 3, 1, 2] Error.EOF)
    sampleBuffer (by decide) (by decide)).2.2 0 3 [1, 2] rfl (by decide) (by decide)
  ⟨by decide, by decide, ⟨hc.2.2.1 corrupted_sample_tag, hc.1, hc.2.1⟩, ⟨hs.1, hs.2.1, hs.2.2⟩⟩

/-- C17. Chunk length arithmetic fails on the code: for the declared length rawLen = 65535
(bytes FF FF) the sum rawLen + 10 is 65545, but `length` is a `uint16` and holds 9. `Read`
takes 9 follow-on bytes from the stream, leaving the tenth unread, and narrows the buffer
to 9 bytes, on which the slice `buffer.Value[AuthSize:]` panics. -/
theorem chunk_length_wraps :
    BytesToUint16 [255, 255] + AuthSize = 65545 ∧
    (BytesToUint16 [255, 255] + AuthSize) % 65536 = 9 ∧
    ((NewChunkReader { data := [255, 255, 1, 2, 3, 4, 5, 6, 7, 8, 9, 77], fail := Error.EOF }
        (NewAuthenticator (ChunkKeyGenerator [1, 2, 3]))).Read sampleBuffer).1
      = Outcome.panic ∧
    ((NewChunkReader { data := [255, 255, 1, 2, 3, 4, 5, 6, 7, 8, 9, 77], fail := Error.EOF }
        (NewAuthenticator (ChunkKeyGenerator [1, 2, 3]))).Read sampleBuffer).2.reader.data
      = [77] := by
  refine ⟨by decide, by decide, ?_, ?_⟩
  · decide!
  · decide!

/-- C19. `Write` changes the caller's buffer in place: for a payload buffer holding P with
12 bytes or more of headroom, after `Write` has returned, whatever the stream's write call
returned, the valid range of the buffer holds the whole wire unit: the 2-byte length, the
10-byte tag, then P. Its length is len(P) + 12, its last len(P) bytes are P unchanged, the
headroom is 12 bytes shorter, and what lies behind the valid range is untouched. -/
theorem Write_in_place {ω σ : Type} (this : ChunkWriter ω σ) (payload : Buffer)
    (hroom : 12 ≤ payload.front.length) :
    ∃ res w' payload',
      this.Write payload = some (res, w', payload') ∧
      payload'.Bytes = [toByte (payload.Len % 65536 / 256), toByte (payload.Len % 65536)]
        ++ (hmacSha1 this.auth.key.call.1 payload.Bytes).take 10 ++ payload.Bytes ∧
      payload'.Len = payload.Len + 12 ∧
      payload'.Bytes.drop 12 = payload.Bytes ∧
      payload'.front = payload.front.take (payload.front.length - 12) ∧
      payload'.front.length + 12 = payload.front.length ∧
      payload'.spare = payload.spare := by
  have h10 : ((hmacSha1 this.auth.key.call.1 payload.Value).take 10).length = 10 := by
    rw [List.length_take, hmacSha1_length]
    rfl
  have hu : wireUnit this.auth payload.Value
      = [toByte (payload.Len % 65536 / 256), toByte (payload.Len % 65536)]
        ++ (hmacSha1 this.auth.key.call.1 payload.Bytes).take 10 ++ payload.Bytes := by
    rw [wireUnit_cons, Nat.shiftRight_eq_div_pow]
    rfl
  refine ⟨_, _, _, Write_eq this payload hroom, ?_, ?_, ?_, rfl, ?_, rfl⟩
  · rw [Buffer.Bytes, mk_Value, hu]
  · rw [Buffer.Len, mk_Value, wireUnit_length]
    rfl
  · rw [Buffer.Bytes, mk_Value, hu, List.append_assoc]
    have : ([toByte (payload.Len % 65536 / 256), toByte (payload.Len % 65536)]
        ++ ((hmacSha1 this.auth.key.call.1 payload.Bytes).take 10 ++ payload.Bytes)).drop 12
        = payload.Bytes := by
      rw [show (12 : Nat) = 2 + 10 from rfl, ← List.drop_drop]
      rw [show ([toByte (payload.Len % 65536 / 256), toByte (payload.Len % 65536)]
        ++ ((hmacSha1 this.auth.key.call.1 payload.Bytes).take 10 ++ payload.Bytes)).drop 2
        = (hmacSha1 this.auth.key.call.1 payload.Bytes).take 10 ++ payload.Bytes from rfl]
      exact List.drop_left' h10
    exact this
  · rw [mk_front, List.length_take]
    omega

theorem Write_in_place_witness :
    12 ≤ samplePayload.front.length ∧
    ∃ res w' payload',
      (NewChunkWriter (Writer.sink [7]) (NewAuthenticator (ChunkKeyGenerator [1, 2, 3]))).Write
          samplePayload = some (res, w', payload') ∧
      payload'.Bytes
        = [toByte (samplePayload.Len % 65536 / 256), toByte (samplePayload.Len % 65536)]
          ++ (hmacSha1 (NewChunkWriter (Writer.sink [7])
              (NewAuthenticator (ChunkKeyGenerator [1, 2, 3]))).auth.key.call.1
              samplePayload.Bytes).take 10 ++ samplePayload.Bytes ∧
      payload'.Len = samplePayload.Len + 12 ∧
      payload'.Bytes.drop 12 = samplePayload.Bytes ∧
      payload'.front = samplePayload.front.take (samplePayload.front.length - 12) ∧
      payload'.front.length + 12 = samplePayload.front.length ∧
      payload'.spare = samplePayload.spare :=
  ⟨by decide, Write_in_place (NewChunkWriter (Writer.sink [7])
    (NewAuthenticator (ChunkKeyGenerator [1, 2, 3]))) samplePayload (by decide)⟩

theorem checked_data {σ : Type} (r : ChunkReader σ) (P rest : List Byte) :
    (r.checked P rest).reader.data = rest := rfl

/-- What two `Read` calls make of two chunks that were written in the order A, B and reach
the reader in the order B, A. The first call takes the chunk of B off the stream and leaves
the key generator one invocation on, whatever its verdict; the second call then checks the
tag written for A under the writer's first key against the tag of A under the reader's
second key, and rejects the chunk exactly when the two differ. -/
theorem reorder_verdict {σ : Type} (a : Authenticator σ) (A B rest : List Byte)
    (buffer1 buffer2 : Buffer) (fail : Error)
    (hB : B.length + 10 ≤ buffer1.cap) (hcap1 : buffer1.cap ≤ 65535)
    (hA : A.length + 10 ≤ buffer2.cap) (hcap2 : buffer2.cap ≤ 65535) :
    (((NewChunkReader
        { data := wireUnit (a.Authenticate [] A).2 B ++ (wireUnit a A ++ rest), fail := fail }
        a).Read buffer1).2.Read buffer2).1 =
      if (a.Authenticate [] A).1 ≠ ((a.Authenticate [] B).2.Authenticate [] A).1 then
        .error Error.ErrCorruptedPacket
      else
        .ok { front := buffer2.front ++ (a.Authenticate [] A).1, Value := A
              spare := (buffer2.Value ++ buffer2.spare).drop (A.length + 10) } := by
  have h1 : ((NewChunkReader
        { data := wireUnit (a.Authenticate [] A).2 B ++ (wireUnit a A ++ rest), fail := fail }
        a).Read buffer1).2
      = (NewChunkReader
        { data := wireUnit (a.Authenticate [] A).2 B ++ (wireUnit a A ++ rest), fail := fail }
        a).checked B (wireUnit a A ++ rest) := by
    rw [Read_chunk _ buffer1 (toByte ((B.length % 65536) >>> 8)) (toByte (B.length % 65536))
      ((a.Authenticate [] A).2.Authenticate [] B).1 B (wireUnit a A ++ rest)
      (by rw [reader_data, wireUnit_cons]; rfl)
      (Authenticate_nil_length _ _)
      (header_decodes _ (by omega))
      hB]
    split <;> rfl
  rw [h1, Read_chunk _ buffer2 (toByte ((A.length % 65536) >>> 8)) (toByte (A.length % 65536))
      (a.Authenticate [] A).1 A rest
      (by rw [checked_data, wireUnit_cons]; rfl)
      (Authenticate_nil_length _ _)
      (header_decodes _ (by omega))
      hA, checked_auth, reader_auth]
  split <;> rfl

end Shadowsocks
